import Mathlib

/-!
Verification of the USB command line interpreter (usbd_cli.c, usbd_cli_commands.c).

The model is a shallow embedding: the two global buffers, the two cursor
indices, the status bit mask and the `pResponse` pointer become a `CLIState`
record; the exported entry points `CLI_Input` / `CLI_Output` and the private
helpers `BufferInput`, `InvokeCommand`, `ResponseError`, `ResetBuffer` become
pure functions from state to state.  Bytes are `Nat`s; C strings are read with
`cstr` (the bytes up to the first 0).  The status mask `CLI_Status` is
represented as a record of booleans, one per bit of the C mask
(ECHO, NEWLINE, PROMPT, RESPONSE, BREAK, BUSY, CMDOVF); CMDOVF is the only
bit of `CLI_STATUS_ERROR_MASK` the program ever sets.
-/

/-- Result codes of command handlers and of `BufferInput`
(`CLI_RESULT_OK` / `CLI_RESULT_FAIL` / `CLI_RESULT_INVALID`).
Modelled from the spec: the header `usbd_cli.h` defining the numeric values is
not in `src/`; the spec gives the handler result set `{OK, INVALID, FAIL}`. -/
inductive CLIResult where
  | ok
  | fail
  | invalid
deriving DecidableEq, Repr

/-- `USBD_OK`, the success return code of `CLI_Input` (from `usbd_def.h`,
not in `src/`; it is the transport's success status). Modelled from the spec. -/
def USBD_OK : Int := 0

/-- Modelled from the spec: `CLI_COMMAND_LENGTH`, the command-buffer capacity,
is a configuration constant in the missing header `usbd_cli.h`; a concrete
value is fixed for the scenario theorems. -/
def CLI_COMMAND_LENGTH : Nat := 64

/-- Modelled from the spec: `CLI_RESPONSE_LENGTH`, the response-buffer
capacity, is a configuration constant in the missing header `usbd_cli.h`. -/
def CLI_RESPONSE_LENGTH : Nat := 64

/-- Modelled from the spec: `CLI_STRING_NEWLINE`, the line-terminator /
newline string, is a configuration constant in the missing header; the spec's
end-to-end scenario fixes it to `"\r\n"` = `[13, 10]`. -/
def String_Newline : List Nat := [13, 10]

/-- Modelled from the spec: `CLI_STRING_PROMPT` is a configuration constant in
the missing header; its contents never matter to the claims, a one-byte
prompt `">"` is used. -/
def String_Prompt : List Nat := [62]

/-- `STRING_CMD_OVERFLOW`: the bytes of "Error : Command buffer overflow." -/
def ErrorMessage_CmdOvf : List Nat :=
  [69, 114, 114, 111, 114, 32, 58, 32, 67, 111, 109, 109, 97, 110, 100, 32,
   98, 117, 102, 102, 101, 114, 32, 111, 118, 101, 114, 102, 108, 111, 119, 46]

/-- `STRING_OTHER`: the bytes of "Error : Unexpected problem occured." -/
def ErrorMessage_Other : List Nat :=
  [69, 114, 114, 111, 114, 32, 58, 32, 85, 110, 101, 120, 112, 101, 99, 116,
   101, 100, 32, 112, 114, 111, 98, 108, 101, 109, 32, 111, 99, 99, 117, 114,
   101, 100, 46]

/-- `STRING_CMD_NOTFOUND`: the bytes of "Error : Command not found." -/
def ErrorMessage_CmdNotFound : List Nat :=
  [69, 114, 114, 111, 114, 32, 58, 32, 67, 111, 109, 109, 97, 110, 100, 32,
   110, 111, 116, 32, 102, 111, 117, 110, 100, 46]

/-- `STRING_ARG_INVALID`: the bytes of "Error : Argument invalid." -/
def ErrorMessage_ArgInvalid : List Nat :=
  [69, 114, 114, 111, 114, 32, 58, 32, 65, 114, 103, 117, 109, 101, 110, 116,
   32, 105, 110, 118, 97, 108, 105, 100, 46]

/-- The flags of `CLI_Status`, one boolean per bit of the C mask:
ECHO 0x1, NEWLINE 0x2, PROMPT 0x4, RESPONSE 0x8, BREAK 0x10, BUSY 0x20,
CMDOVF 0x100.  CMDOVF is the only bit of `CLI_STATUS_ERROR_MASK` (0xF00)
that the program ever sets, so it stands for the whole error mask. -/
structure CLIStatusFlags where
  echo : Bool := false
  newline : Bool := false
  prompt : Bool := false
  response : Bool := false
  brk : Bool := false
  busy : Bool := false
  cmdovf : Bool := false
deriving DecidableEq, Repr

/-- The possible targets of the global pointer `pResponse`:
NULL (its zero-initialized value), the `ResponseBuffer`, or one of the two
static error-message arrays. -/
inductive ResponsePtr where
  | null
  | respBuffer
  | errCmdOvf
  | errOther
deriving DecidableEq, Repr

/-- The mutable globals of usbd_cli.c: `CommandBuffer`, `ResponseBuffer`,
`CmdBufIdxIn`, `CmdBufIdxOut`, `CLI_Status`, `pResponse`. -/
structure CLIState where
  CommandBuffer : List Nat
  ResponseBuffer : List Nat
  CmdBufIdxIn : Nat
  CmdBufIdxOut : Nat
  CLI_Status : CLIStatusFlags
  pResponse : ResponsePtr
deriving DecidableEq, Repr

/-- `IS_CHAR_VALID`: a byte is accepted iff it is CR, LF, or printable
ASCII 0x20..0x7E. -/
def IS_CHAR_VALID (c : Nat) : Bool :=
  c == 13 || c == 10 || (decide (32 ≤ c) && decide (c ≤ 126))

/-- The C string stored at the start of a buffer: the bytes before the first
0 terminator. -/
def cstr (l : List Nat) : List Nat := l.takeWhile (fun c => c != 0)

/-- The C string stored at offset `i` of a buffer (pointer `&buf[i]`). -/
def cstrAt (l : List Nat) (i : Nat) : List Nat := cstr (l.drop i)

/-- `strstr(buf, pat)` as an index: the first position of `s` at which `pat`
occurs as a substring, scanning the haystack string `s` left to right. -/
def findTerm (pat : List Nat) : List Nat → Option Nat
  | [] => if pat.isPrefixOf ([] : List Nat) then some 0 else none
  | c :: rest =>
    if pat.isPrefixOf (c :: rest) then some 0
    else (findTerm pat rest).map (· + 1)

/-- Byte-wise copy of `src` into `dst` starting at index `i`
(the `for` loops of `ResponseError` and `TEST`). -/
def storeAt (dst : List Nat) (i : Nat) : List Nat → List Nat
  | [] => dst
  | c :: rest => storeAt (dst.set i c) (i + 1) rest

/-- Zero `n` consecutive bytes of `l` starting at index `i`
(the terminators written by `StrTrimR`). -/
def setRangeZero (l : List Nat) (i : Nat) : Nat → List Nat
  | 0 => l
  | n + 1 => setRangeZero (l.set i 0) (i + 1) n

/-- The length of the maximal run of trailing spaces of a string; `StrTrimR`
overwrites exactly these bytes with 0. -/
def trailingSpaces (l : List Nat) : Nat :=
  (l.reverse.takeWhile (fun c => c == 32)).length

/-- A command handler: takes the argument string (NULL modelled as `none`)
and the current `ResponseBuffer` contents, returns the new contents and the
`CommandFxn` result code. -/
abbrev Handler : Type := Option (List Nat) → List Nat → List Nat × CLIResult

/-- A command table: the (name, handler) pairs of `CommandSet`. -/
abbrev CommandTable : Type := List (List Nat × Handler)

/-- `ResponseError`: copy the selected error message, including its 0
terminator (`sizeof` counts it), into the start of the buffer.
Error numbers: 0 = `ERRNO_CMD_NOTFOUND`, 1 = `ERRNO_ARG_INVALID`. -/
def ResponseError (pRes : List Nat) (ErrNo : Nat) : List Nat :=
  if ErrNo = 0 then storeAt pRes 0 (ErrorMessage_CmdNotFound ++ [0])
  else if ErrNo = 1 then storeAt pRes 0 (ErrorMessage_ArgInvalid ++ [0])
  else pRes

/-- `ResponseError_CmdNotFound`: the default handler, writes the "not found"
message and reports `CLI_RESULT_OK`. -/
def ResponseError_CmdNotFound : Handler :=
  fun _ pRes => (ResponseError pRes 0, CLIResult.ok)

/-- The linear scan of `InvokeCommand` over `CommandSet`: every matching
entry overwrites the previously chosen handler, so the last match wins;
the scan starts from `ResponseError_CmdNotFound`. -/
def lookupCommand (table : CommandTable) (name : List Nat) : Handler :=
  table.foldl (fun acc e => if e.1 = name then e.2 else acc)
    ResponseError_CmdNotFound

/-- The command name: the token before the first space of the trimmed line
(`strchr(pCmd, ' ')` splits; with no space the whole line is the name). -/
def cmdName (s2 : List Nat) : List Nat :=
  match s2.findIdx? (fun c => c == 32) with
  | none => s2
  | some j => s2.take j

/-- The argument string handed to the handler: NULL when the trimmed line has
no space, otherwise the bytes after the first space with leading spaces
stripped (`StrTrim(&pArg)`). -/
def cmdArgOpt (s2 : List Nat) : Option (List Nat) :=
  match s2.findIdx? (fun c => c == 32) with
  | none => none
  | some j => some ((s2.drop (j + 1)).dropWhile (fun c => c == 32))

/-- The command token of a line: `StrTrim` skips the leading spaces,
`StrTrimR` cuts the trailing spaces. -/
def trimmedToken (s : List Nat) : List Nat :=
  let s1 := s.drop ((s.takeWhile (fun c => c == 32)).length)
  s1.take (s1.length - trailingSpaces s1)

/-- `InvokeCommand`: trim the line in place (`StrTrim` advances the read
pointer past leading spaces, `StrTrimR` zeroes the trailing spaces); an
all-space line stores the empty response; otherwise split name/argument at
the first space (zeroing the separator in the buffer), look the name up in
the table, run the handler on the `ResponseBuffer`, substitute the
"argument invalid" message when it returns `CLI_RESULT_INVALID`, and force a
0 terminator into the last buffer byte.  Returns the mutated `CommandBuffer`
and the new `ResponseBuffer`. -/
def InvokeCommand (capR : Nat) (table : CommandTable) (buf resp : List Nat) :
    List Nat × List Nat :=
  let s := cstr buf
  let o1 := (s.takeWhile (fun c => c == 32)).length
  let s1 := s.drop o1
  let t := trailingSpaces s1
  let buf1 := setRangeZero buf (o1 + (s1.length - t)) t
  let s2 := trimmedToken s
  if s2.length = 0 then
    (buf1, resp.set 0 0)
  else
    let buf2 :=
      match s2.findIdx? (fun c => c == 32) with
      | none => buf1
      | some j => buf1.set (o1 + j) 0
    let Command := lookupCommand table (cmdName s2)
    let pr := Command (cmdArgOpt s2) resp
    let resp2 := if pr.2 = CLIResult.invalid then ResponseError pr.1 1 else pr.1
    (buf2, resp2.set (capR - 1) 0)

/-- `BufferInput`: append each accepted byte at `CmdBufIdxIn`; when the
post-increment index reaches `CLI_COMMAND_LENGTH` report `CLI_RESULT_FAIL`
and break, leaving the remaining input unconsumed.  Returns the new buffer,
the new index, and the result. -/
def BufferInput (cap : Nat) (pInput : List Nat) (buf : List Nat) (idxIn : Nat) :
    List Nat × Nat × CLIResult :=
  match pInput with
  | [] => (buf, idxIn, CLIResult.ok)
  | c :: rest =>
    if IS_CHAR_VALID c then
      let buf1 := buf.set idxIn c
      let idx1 := idxIn + 1
      if cap ≤ idx1 then (buf1, idx1, CLIResult.fail)
      else BufferInput cap rest buf1 idx1
    else BufferInput cap rest buf idxIn

/-- `CLI_Input`: ignore the call while BUSY or empty; buffer the bytes; on
overflow set BUSY and CMDOVF and return `USBD_OK`; otherwise scan for the
newline string, and when found overwrite its first byte with 0, run
`InvokeCommand`, point `pResponse` at the `ResponseBuffer`, and set
BUSY and BREAK.  Always returns `USBD_OK`. -/
def CLI_Input (cap capR : Nat) (table : CommandTable) (pInput : List Nat)
    (s : CLIState) : CLIState × Int :=
  if s.CLI_Status.busy || pInput.length == 0 then (s, USBD_OK)
  else
    let bi := BufferInput cap pInput s.CommandBuffer s.CmdBufIdxIn
    if bi.2.2 ≠ CLIResult.ok then
      ({ s with
           CommandBuffer := bi.1
           CmdBufIdxIn := bi.2.1
           CLI_Status := { s.CLI_Status with busy := true, cmdovf := true } },
       USBD_OK)
    else
      match findTerm String_Newline (cstr bi.1) with
      | none =>
        ({ s with CommandBuffer := bi.1, CmdBufIdxIn := bi.2.1 }, USBD_OK)
      | some p =>
        let buf2 := bi.1.set p 0
        let iv := InvokeCommand capR table buf2 s.ResponseBuffer
        ({ s with
             CommandBuffer := iv.1
             ResponseBuffer := iv.2
             CmdBufIdxIn := bi.2.1
             pResponse := ResponsePtr.respBuffer
             CLI_Status := { s.CLI_Status with busy := true, brk := true } },
         USBD_OK)

/-- The string read through `pResponse` at output time. `pResponse` is NULL
only before the first write to it, and the RESPONSE branch is unreachable in
that state; NULL dereference is modelled as the empty string. -/
def derefResponse (s : CLIState) : List Nat :=
  match s.pResponse with
  | ResponsePtr.null => []
  | ResponsePtr.respBuffer => cstr s.ResponseBuffer
  | ResponsePtr.errCmdOvf => ErrorMessage_CmdOvf
  | ResponsePtr.errOther => ErrorMessage_Other

/-- `CLI_Output`: the priority-ordered sequencer.  Branches, in order:
error mask (CMDOVF: point `pResponse` at the overflow message, go to
RESPONSE+NEWLINE, clearing CMDOVF and ECHO — note `pOutput` stays NULL in
this branch), ECHO (emit the string at `CmdBufIdxOut` and advance the cursor
by its length; with BREAK set leave echo towards RESPONSE+NEWLINE or, for an
empty fragment, PROMPT+NEWLINE), NEWLINE, RESPONSE, PROMPT (emit the prompt,
`ResetBuffer`, re-arm ECHO and clear BUSY), and the defensive
unexpected-state branch (point `pResponse` at the generic message, force
RESPONSE+NEWLINE+BUSY, return NULL). -/
def CLI_Output (cap capR : Nat) (s : CLIState) : CLIState × Option (List Nat) :=
  if s.CLI_Status.cmdovf then
    ({ s with
         pResponse := ResponsePtr.errCmdOvf
         CLI_Status := { s.CLI_Status with
                           cmdovf := false
                           echo := false
                           response := true
                           newline := true } },
     none)
  else if s.CLI_Status.echo then
    if s.CmdBufIdxOut < s.CmdBufIdxIn then
      let frag := cstrAt s.CommandBuffer s.CmdBufIdxOut
      let out1 := s.CmdBufIdxOut + frag.length
      if s.CLI_Status.brk then
        if 0 < frag.length then
          ({ s with
               CmdBufIdxOut := out1
               CLI_Status := { s.CLI_Status with
                                 echo := false
                                 brk := false
                                 response := true
                                 newline := true } },
           some frag)
        else
          ({ s with
               CmdBufIdxOut := out1
               CLI_Status := { s.CLI_Status with
                                 echo := false
                                 brk := false
                                 prompt := true
                                 newline := true } },
           some frag)
      else
        ({ s with CmdBufIdxOut := out1 }, some frag)
    else (s, none)
  else if s.CLI_Status.newline then
    ({ s with CLI_Status := { s.CLI_Status with newline := false } },
     some String_Newline)
  else if s.CLI_Status.response then
    ({ s with
         CLI_Status := { s.CLI_Status with
                           response := false
                           newline := true
                           prompt := true } },
     some (derefResponse s))
  else if s.CLI_Status.prompt then
    ({ s with
         CommandBuffer := List.replicate cap 0
         ResponseBuffer := List.replicate capR 0
         CmdBufIdxIn := 0
         CmdBufIdxOut := 0
         CLI_Status := { s.CLI_Status with
                           prompt := false
                           busy := false
                           echo := true } },
     some String_Prompt)
  else
    ({ s with
         pResponse := ResponsePtr.errOther
         CLI_Status := { s.CLI_Status with
                           response := true
                           newline := true
                           busy := true } },
     none)

/-- The 26 bytes `'a' + i` for `i < 26` that `TEST` writes. -/
def TEST_letters : List Nat := (List.range 26).map (fun i => 97 + i)

/-- `TEST`, the handler registered for `GET_LOG`: a non-NULL argument is
`CLI_RESULT_INVALID`; with a NULL argument it writes the 26 lowercase
letters (and no terminator) at the start of the response buffer. -/
def TEST : Handler :=
  fun pArg pRes =>
    match pArg with
    | some _ => (pRes, CLIResult.invalid)
    | none => (storeAt pRes 0 TEST_letters, CLIResult.ok)

/-- The name bytes of the single registered command, "GET_LOG". -/
def GETLOG_name : List Nat := [71, 69, 84, 95, 76, 79, 71]

/-- `CommandSet` from usbd_cli_commands.c: the single entry (GET_LOG, TEST). -/
def CommandSet : CommandTable := [(GETLOG_name, TEST)]

/-- The process-initial state: zero-initialized globals (both buffers zero,
both indices zero, no status flag set, `pResponse` NULL). -/
def initState (cap capR : Nat) : CLIState :=
  { CommandBuffer := List.replicate cap 0
    ResponseBuffer := List.replicate capR 0
    CmdBufIdxIn := 0, CmdBufIdxOut := 0
    CLI_Status := {}
    pResponse := ResponsePtr.null }

/-- The state at the start of a request/response cycle: both buffers reset,
both cursors zero, only ECHO set, `pResponse` left at the `ResponseBuffer`
(where the previous completed cycle's dispatch put it). -/
def readyState (cap capR : Nat) : CLIState :=
  { initState cap capR with
      CLI_Status := { echo := true }
      pResponse := ResponsePtr.respBuffer }

/-- Intermediate framing state: the accepted bytes `G` (no terminator among
them yet) sit at the start of the zero-filled command buffer, the write
cursor is at their end, and the session is still open. -/
def midState (cap capR : Nat) (G : List Nat) : CLIState :=
  { readyState cap capR with
      CommandBuffer := G ++ List.replicate (cap - G.length) 0
      CmdBufIdxIn := G.length }

/-- `n` polls of `CLI_Output`, collecting every return value. -/
def pollN (cap capR : Nat) : Nat → CLIState → List (Option (List Nat)) × CLIState
  | 0, s => ([], s)
  | n + 1, s =>
    let o := CLI_Output cap capR s
    let r := pollN cap capR n o.1
    (o.2 :: r.1, r.2)

/-- Poll `CLI_Output` until it returns nothing pending (fuel-bounded),
collecting the fragments delivered before that. -/
def drainFuel (cap capR : Nat) : Nat → CLIState → List (List Nat) × CLIState
  | 0, s => ([], s)
  | n + 1, s =>
    match CLI_Output cap capR s with
    | (s1, none) => ([], s1)
    | (s1, some f) =>
      let r := drainFuel cap capR n s1
      (f :: r.1, r.2)

/-- Feed a list of input chunks through successive `CLI_Input` calls. -/
def feedChunks (cap capR : Nat) (table : CommandTable) :
    List (List Nat) → CLIState → CLIState
  | [], s => s
  | c :: cs, s => feedChunks cap capR table cs (CLI_Input cap capR table c s).1

/-- The state right after a line with filtered bytes `F`, terminator at `p`,
has been dispatched out of `readyState`: the terminator byte is zeroed, the
dispatcher has mutated the buffers, BUSY and BREAK are set. -/
def dispatchedState (cap capR : Nat) (table : CommandTable) (F : List Nat)
    (p : Nat) : CLIState :=
  let bufT := F.set p 0 ++ List.replicate (cap - F.length) 0
  let iv := InvokeCommand capR table bufT (List.replicate capR 0)
  { CommandBuffer := iv.1
    ResponseBuffer := iv.2
    CmdBufIdxIn := F.length, CmdBufIdxOut := 0
    CLI_Status := { echo := true, brk := true, busy := true }
    pResponse := ResponsePtr.respBuffer }

/-! Concrete scenario states, all starting from `readyState` at the modelled
capacities. -/

/-- The bytes of the end-to-end scenario input "GET_LOG\r\n". -/
def GETLOG_line : List Nat := GETLOG_name ++ String_Newline

/-- The state after feeding "GET_LOG\r\n" in one `CLI_Input` call. -/
def GETLOG_state : CLIState :=
  (CLI_Input CLI_COMMAND_LENGTH CLI_RESPONSE_LENGTH CommandSet GETLOG_line
    (readyState CLI_COMMAND_LENGTH CLI_RESPONSE_LENGTH)).1

/-- An input line longer than the command-buffer capacity: 70 copies of
`'a'` followed by the terminator. -/
def Overflow_input : List Nat := List.replicate 70 97 ++ String_Newline

/-- The state after feeding the over-long line in one `CLI_Input` call. -/
def Overflow_state : CLIState :=
  (CLI_Input CLI_COMMAND_LENGTH CLI_RESPONSE_LENGTH CommandSet Overflow_input
    (readyState CLI_COMMAND_LENGTH CLI_RESPONSE_LENGTH)).1

/-- The state after feeding the space-only line " \r\n" in one call. -/
def Blank_state : CLIState :=
  (CLI_Input CLI_COMMAND_LENGTH CLI_RESPONSE_LENGTH CommandSet [32, 13, 10]
    (readyState CLI_COMMAND_LENGTH CLI_RESPONSE_LENGTH)).1

/-- The state after feeding the empty line "\r\n" in one call. -/
def EmptyLine_state : CLIState :=
  (CLI_Input CLI_COMMAND_LENGTH CLI_RESPONSE_LENGTH CommandSet [13, 10]
    (readyState CLI_COMMAND_LENGTH CLI_RESPONSE_LENGTH)).1

/-- The state after feeding "a b\r\n" (command name with argument) in one
call. -/
def ArgLine_state : CLIState :=
  (CLI_Input CLI_COMMAND_LENGTH CLI_RESPONSE_LENGTH CommandSet [97, 32, 98, 13, 10]
    (readyState CLI_COMMAND_LENGTH CLI_RESPONSE_LENGTH)).1

/-- C1: end-to-end happy path.  From a completed cycle (readyState: buffers
reset, only ECHO set, busy clear), feeding "GET_LOG\r\n" in one `CLI_Input`
call and polling until nothing is pending yields exactly the fragments
"GET_LOG" (echo), the newline string, the 26 lowercase letters, the newline
string, and the prompt string; the poll that ends the drain returns nothing
pending and leaves the state back at `readyState`, whose next poll is again
nothing pending and where a following `CLI_Input` call accepts new bytes
(the fed byte is appended and the write index advances). -/
theorem C1_end_to_end :
    drainFuel CLI_COMMAND_LENGTH CLI_RESPONSE_LENGTH 10 GETLOG_state =
      ([GETLOG_name, String_Newline, TEST_letters, String_Newline, String_Prompt],
       readyState CLI_COMMAND_LENGTH CLI_RESPONSE_LENGTH) ∧
    (CLI_Output CLI_COMMAND_LENGTH CLI_RESPONSE_LENGTH
        (readyState CLI_COMMAND_LENGTH CLI_RESPONSE_LENGTH)).2 = none ∧
    (CLI_Input CLI_COMMAND_LENGTH CLI_RESPONSE_LENGTH CommandSet [97]
        (readyState CLI_COMMAND_LENGTH CLI_RESPONSE_LENGTH)).1.CmdBufIdxIn = 1 := by
  refine ⟨by decide, by decide, by decide⟩

/-- C2, counterexample: after the over-long line, polling `CLI_Output` until
it returns nothing pending yields NO fragments at all — the first poll takes
the error branch, which transitions the flags but returns NULL — so the
claimed fragment sequence (overflow message, newline, prompt) is not
produced; at that point the session is still busy, the command buffer still
holds the 64 overflowed bytes (no reset), and a further `CLI_Input` call is
ignored rather than accepted. -/
theorem C2_counterexample :
    (drainFuel CLI_COMMAND_LENGTH CLI_RESPONSE_LENGTH 10 Overflow_state).1 = [] ∧
    (drainFuel CLI_COMMAND_LENGTH CLI_RESPONSE_LENGTH 10
        Overflow_state).2.CLI_Status.busy = true ∧
    (drainFuel CLI_COMMAND_LENGTH CLI_RESPONSE_LENGTH 10
        Overflow_state).2.CmdBufIdxIn = 64 ∧
    CLI_Input CLI_COMMAND_LENGTH CLI_RESPONSE_LENGTH CommandSet [97]
        (drainFuel CLI_COMMAND_LENGTH CLI_RESPONSE_LENGTH 10 Overflow_state).2 =
      ((drainFuel CLI_COMMAND_LENGTH CLI_RESPONSE_LENGTH 10 Overflow_state).2,
       USBD_OK) := by
  refine ⟨by decide, by decide, by decide, by decide⟩

/-- C2, amended: after the over-long `CLI_Input` call, the first poll
returns nothing pending (the error branch converts the overflow into a
pending response without emitting anything); the polls after it yield the
newline string, the overflow message, the newline string and the prompt
string; after the prompt both buffers are reset (the final state is
`readyState` with `pResponse` still aimed at the overflow message) and the
next `CLI_Input` call accepts new bytes. -/
theorem C2_amended_drain :
    pollN CLI_COMMAND_LENGTH CLI_RESPONSE_LENGTH 6 Overflow_state =
      ([none, some String_Newline, some ErrorMessage_CmdOvf, some String_Newline,
        some String_Prompt, none],
       { readyState CLI_COMMAND_LENGTH CLI_RESPONSE_LENGTH with
           pResponse := ResponsePtr.errCmdOvf }) ∧
    (CLI_Input CLI_COMMAND_LENGTH CLI_RESPONSE_LENGTH CommandSet [97]
        { readyState CLI_COMMAND_LENGTH CLI_RESPONSE_LENGTH with
            pResponse := ResponsePtr.errCmdOvf }).1.CmdBufIdxIn = 1 := by
  refine ⟨by decide, by decide⟩

/-! Helper lemmas. -/

/-- Setting byte 0 of a buffer to 0 empties its C string. -/
theorem cstr_set_zero_head (l : List Nat) : cstr (l.set 0 0) = [] := by
  cases l <;> simp [cstr]

/-- `BufferInput` on input that overflows at byte `c` never reads the bytes
after `c`: the result is the same whatever follows. -/
theorem BufferInput_stop (cap : Nat) (pre : List Nat) (c : Nat)
    (post buf : List Nat) (i : Nat)
    (hok : (BufferInput cap pre buf i).2.2 = CLIResult.ok)
    (hv : IS_CHAR_VALID c = true)
    (hcap : cap ≤ (BufferInput cap pre buf i).2.1 + 1) :
    BufferInput cap (pre ++ c :: post) buf i =
      ((BufferInput cap pre buf i).1.set (BufferInput cap pre buf i).2.1 c,
       (BufferInput cap pre buf i).2.1 + 1, CLIResult.fail) := by
  induction pre generalizing buf i with
  | nil =>
    simp only [BufferInput, List.nil_append] at hok hcap ⊢
    simp [BufferInput, hv, if_pos hcap]
  | cons a pre ih =>
    by_cases hva : IS_CHAR_VALID a
    · by_cases hc : cap ≤ i + 1
      · simp only [BufferInput, hva, if_true, if_pos hc] at hok
        exact absurd hok (by decide)
      · simp only [List.cons_append, BufferInput, hva, if_true, if_neg hc] at hok hcap ⊢
        exact ih _ _ hok hcap
    · simp only [List.cons_append, BufferInput, hva, if_false] at hok hcap ⊢
      exact ih _ _ hok hcap

/-- C3, counterexample: feeding 70 valid bytes into the empty 64-byte buffer
overflows, yet `CLI_Input` returns `USBD_OK` — the success code — to its
caller, refuting "reports failure to its caller"; the failure report exists
only internally, as `BufferInput`'s `CLI_RESULT_FAIL` to `CLI_Input`.  The
other claimed effects do hold at this input: OVERFLOW and BUSY are set and
the 64 appended bytes stay in the buffer. -/
theorem C3_counterexample :
    (CLI_Input CLI_COMMAND_LENGTH CLI_RESPONSE_LENGTH CommandSet
        (List.replicate 70 97) (readyState CLI_COMMAND_LENGTH CLI_RESPONSE_LENGTH)).2 =
      USBD_OK ∧
    (BufferInput CLI_COMMAND_LENGTH (List.replicate 70 97)
        (List.replicate CLI_COMMAND_LENGTH 0) 0).2.2 = CLIResult.fail ∧
    (CLI_Input CLI_COMMAND_LENGTH CLI_RESPONSE_LENGTH CommandSet
        (List.replicate 70 97)
        (readyState CLI_COMMAND_LENGTH CLI_RESPONSE_LENGTH)).1.CLI_Status.cmdovf =
      true ∧
    (CLI_Input CLI_COMMAND_LENGTH CLI_RESPONSE_LENGTH CommandSet
        (List.replicate 70 97)
        (readyState CLI_COMMAND_LENGTH CLI_RESPONSE_LENGTH)).1.CLI_Status.busy =
      true ∧
    (CLI_Input CLI_COMMAND_LENGTH CLI_RESPONSE_LENGTH CommandSet
        (List.replicate 70 97)
        (readyState CLI_COMMAND_LENGTH CLI_RESPONSE_LENGTH)).1.CmdBufIdxIn = 64 := by
  refine ⟨by decide, by decide, by decide, by decide, by decide⟩

/-- C3, amended: when appending an accepted byte makes the write index reach
capacity, the append routine `BufferInput` stops consuming the remaining
bytes of the call (first conjunct: the result does not depend on the bytes
after the overflow point) and reports `CLI_RESULT_FAIL` to `CLI_Input`;
`CLI_Input` then sets the OVERFLOW and BUSY flags, keeps the bytes already
appended, and returns `USBD_OK` (success) to its own caller (second
conjunct). -/
theorem C3_amended :
    (∀ (cap : Nat) (pre : List Nat) (c : Nat) (post buf : List Nat) (i : Nat),
        (BufferInput cap pre buf i).2.2 = CLIResult.ok →
        IS_CHAR_VALID c = true →
        cap ≤ (BufferInput cap pre buf i).2.1 + 1 →
        BufferInput cap (pre ++ c :: post) buf i =
          ((BufferInput cap pre buf i).1.set (BufferInput cap pre buf i).2.1 c,
           (BufferInput cap pre buf i).2.1 + 1, CLIResult.fail)) ∧
    (∀ (cap capR : Nat) (table : CommandTable) (pInput : List Nat) (s : CLIState),
        s.CLI_Status.busy = false →
        pInput.length ≠ 0 →
        (BufferInput cap pInput s.CommandBuffer s.CmdBufIdxIn).2.2 = CLIResult.fail →
        CLI_Input cap capR table pInput s =
          ({ s with
               CommandBuffer := (BufferInput cap pInput s.CommandBuffer s.CmdBufIdxIn).1
               CmdBufIdxIn := (BufferInput cap pInput s.CommandBuffer s.CmdBufIdxIn).2.1
               CLI_Status := { s.CLI_Status with busy := true, cmdovf := true } },
           USBD_OK)) := by
  constructor
  · exact BufferInput_stop
  · intro cap capR table pInput s hb hl hf
    simp [CLI_Input, hb, hl, hf]

/-- Witness for C3's amended theorem: both conjuncts applied at a concrete
overflow (capacity 4, input "aaaab…", overflow at the fourth byte). -/
theorem C3_amended_witness :
    BufferInput 4 ([97, 97, 97] ++ 98 :: [99, 100]) (List.replicate 4 0) 0 =
      ((BufferInput 4 [97, 97, 97] (List.replicate 4 0) 0).1.set
         (BufferInput 4 [97, 97, 97] (List.replicate 4 0) 0).2.1 98,
       (BufferInput 4 [97, 97, 97] (List.replicate 4 0) 0).2.1 + 1,
       CLIResult.fail) ∧
    CLI_Input 4 4 CommandSet [97, 97, 97, 98, 99, 100] (readyState 4 4) =
      ({ readyState 4 4 with
           CommandBuffer :=
             (BufferInput 4 [97, 97, 97, 98, 99, 100]
               (readyState 4 4).CommandBuffer (readyState 4 4).CmdBufIdxIn).1
           CmdBufIdxIn :=
             (BufferInput 4 [97, 97, 97, 98, 99, 100]
               (readyState 4 4).CommandBuffer (readyState 4 4).CmdBufIdxIn).2.1
           CLI_Status := { (readyState 4 4).CLI_Status with busy := true, cmdovf := true } },
       USBD_OK) :=
  ⟨C3_amended.1 4 [97, 97, 97] 98 [99, 100] (List.replicate 4 0) 0
      (by decide) (by decide) (by decide),
   C3_amended.2 4 4 CommandSet [97, 97, 97, 98, 99, 100] (readyState 4 4)
      (by decide) (by decide) (by decide)⟩

/-- A line whose C string is all spaces (or empty) dispatches to the
empty-response branch of `InvokeCommand`: the stored response reads as the
empty string. -/
theorem InvokeCommand_blank (capR : Nat) (table : CommandTable)
    (buf resp : List Nat) (h : ∀ c ∈ cstr buf, c = 32) :
    cstr (InvokeCommand capR table buf resp).2 = [] := by
  have h1 : (cstr buf).takeWhile (fun c => c == 32) = cstr buf :=
    List.takeWhile_eq_self_iff.mpr (fun x hx => by simp [h x hx])
  simp only [InvokeCommand, trimmedToken, h1, List.drop_length]
  simp [trailingSpaces, cstr_set_zero_head]

/-- C4, counterexample: the space-only line " \r\n" is dispatched as a blank
line (its post-dispatch C string is all spaces) and the dispatcher does
store an empty response, but the sequencer does NOT skip the
response/newline pair: the echo poll transitions to RESPONSE (not PROMPT),
and the drained fragment sequence contains an (empty) RESPONSE fragment and
both newline fragments — the cycle is echo " ", newline, empty response,
newline, prompt, not echo-to-prompt. -/
theorem C4_counterexample :
    (cstr Blank_state.CommandBuffer).all (fun c => c == 32) = true ∧
    cstr Blank_state.ResponseBuffer = [] ∧
    (CLI_Output CLI_COMMAND_LENGTH CLI_RESPONSE_LENGTH
        Blank_state).1.CLI_Status.response = true ∧
    (CLI_Output CLI_COMMAND_LENGTH CLI_RESPONSE_LENGTH
        Blank_state).1.CLI_Status.prompt = false ∧
    (pollN CLI_COMMAND_LENGTH CLI_RESPONSE_LENGTH 6 Blank_state).1 =
      [some [32], some String_Newline, some [], some String_Newline,
       some String_Prompt, none] := by
  refine ⟨by decide, by decide, by decide, by decide, by decide⟩

/-- C4, amended: every blank (empty or all-space) dispatched line stores an
empty response (first conjunct, over every table and buffer); the sequencer
skips the response/newline pair — going from the echo step directly to
prompt — exactly when the echo fragment delivered with BREAK set is empty,
as it is for the truly empty line "\r\n" (second conjunct: its cycle is the
empty echo fragment, one newline, prompt, nothing pending, with no RESPONSE
step); for a space-only line fed in one call the echoed fragment is the
spaces themselves, so the pair is emitted with an empty response fragment. -/
theorem C4_amended :
    (∀ (capR : Nat) (table : CommandTable) (buf resp : List Nat),
        (∀ c ∈ cstr buf, c = 32) →
        cstr (InvokeCommand capR table buf resp).2 = []) ∧
    pollN CLI_COMMAND_LENGTH CLI_RESPONSE_LENGTH 4 EmptyLine_state =
      ([some [], some String_Newline, some String_Prompt, none],
       readyState CLI_COMMAND_LENGTH CLI_RESPONSE_LENGTH) := by
  exact ⟨InvokeCommand_blank, by decide⟩

/-- Witness for C4's amended theorem: the blank-dispatch conjunct applied to
the concrete buffer "  \0" (two spaces) with a garbage response buffer. -/
theorem C4_amended_witness :
    cstr (InvokeCommand 8 CommandSet [32, 32, 0, 7] [9, 9, 9, 9]).2 = [] :=
  C4_amended.1 8 CommandSet [32, 32, 0, 7] [9, 9, 9, 9] (by decide)

/-- C5, counterexample: after feeding "a b\r\n" in one call, the dispatcher
has tokenized the buffer to "a\0b\0\n…"; the first echo poll returns the
fragment "a" and leaves the read cursor at index 1 — the position OF the
fragment's 0 terminator, not past it — and the full drain shows the
argument byte "b" is never emitted as an echo fragment: the sequence is
"a", newline, the not-found message, newline, prompt. -/
theorem C5_counterexample :
    ArgLine_state.CommandBuffer[1]? = some 0 ∧
    (CLI_Output CLI_COMMAND_LENGTH CLI_RESPONSE_LENGTH ArgLine_state).2 =
      some [97] ∧
    (CLI_Output CLI_COMMAND_LENGTH CLI_RESPONSE_LENGTH
        ArgLine_state).1.CmdBufIdxOut = 1 ∧
    (drainFuel CLI_COMMAND_LENGTH CLI_RESPONSE_LENGTH 10 ArgLine_state).1 =
      [[97], String_Newline, ErrorMessage_CmdNotFound, String_Newline,
       String_Prompt] := by
  refine ⟨by decide, by decide, by decide, by decide⟩

/-- C5, amended: every `CLI_Output` call taken in the ECHO state (error mask
clear, ECHO set) with the read cursor strictly behind the write cursor
returns the substring starting at the read cursor up to its terminator and
advances the read cursor by the fragment's length — that is, TO the
terminator, not past it; consequently, for a line "name arg" fed in one
call, only the name is echoed: the BREAK transition leaves the echo state
after that first fragment, and the argument bytes beyond the terminator are
never reached (concrete consequence shown in the counterexample). -/
theorem C5_amended (cap capR : Nat) (s : CLIState)
    (h1 : s.CLI_Status.cmdovf = false) (h2 : s.CLI_Status.echo = true)
    (h3 : s.CmdBufIdxOut < s.CmdBufIdxIn) :
    (CLI_Output cap capR s).2 = some (cstrAt s.CommandBuffer s.CmdBufIdxOut) ∧
    (CLI_Output cap capR s).1.CmdBufIdxOut =
      s.CmdBufIdxOut + (cstrAt s.CommandBuffer s.CmdBufIdxOut).length := by
  simp only [CLI_Output, h1, h2, h3, Bool.false_eq_true, if_false, if_true, if_pos]
  split
  · split
    · exact ⟨rfl, rfl⟩
    · exact ⟨rfl, rfl⟩
  · exact ⟨rfl, rfl⟩

/-- Witness for C5's amended theorem, applied at the one-byte framing state
(buffer "a", write cursor 1, read cursor 0). -/
theorem C5_amended_witness :
    (CLI_Output 8 8 (midState 8 8 [97])).2 =
      some (cstrAt (midState 8 8 [97]).CommandBuffer (midState 8 8 [97]).CmdBufIdxOut) ∧
    (CLI_Output 8 8 (midState 8 8 [97])).1.CmdBufIdxOut =
      (midState 8 8 [97]).CmdBufIdxOut +
        (cstrAt (midState 8 8 [97]).CommandBuffer (midState 8 8 [97]).CmdBufIdxOut).length :=
  C5_amended 8 8 (midState 8 8 [97]) (by decide) (by decide) (by decide)

/-- C6: `CLI_Input` called while the BUSY flag is set, or with an empty
input, returns `USBD_OK` and leaves the entire state — both buffers, both
indices, the status mask, `pResponse` — unchanged, consuming nothing. -/
theorem C6_backpressure_noop (cap capR : Nat) (table : CommandTable)
    (pInput : List Nat) (s : CLIState)
    (h : s.CLI_Status.busy = true ∨ pInput.length = 0) :
    CLI_Input cap capR table pInput s = (s, USBD_OK) := by
  rcases h with h | h
  · simp [CLI_Input, h]
  · simp [CLI_Input, h]

/-- Witness for C6: a busy state (the post-dispatch "GET_LOG" state, whose
BUSY flag is set) ignores further input, and any state ignores empty
input. -/
theorem C6_backpressure_noop_witness :
    CLI_Input CLI_COMMAND_LENGTH CLI_RESPONSE_LENGTH CommandSet [97]
        GETLOG_state = (GETLOG_state, USBD_OK) :=
  C6_backpressure_noop CLI_COMMAND_LENGTH CLI_RESPONSE_LENGTH CommandSet [97]
    GETLOG_state (Or.inl (by decide))
theorem storeAt_eq (src : List Nat) : ∀ (dst : List Nat) (i : Nat),
    i + src.length ≤ dst.length →
    storeAt dst i src = dst.take i ++ src ++ dst.drop (i + src.length) := by
  induction src with
  | nil => intro dst i h; simp [storeAt]
  | cons c rest ih =>
    intro dst i h
    have hi : i < dst.length := by simp at h; omega
    simp only [storeAt]
    rw [ih (dst.set i c) (i + 1) (by simp; simp at h; omega)]
    have hset : dst.set i c = dst.take i ++ c :: dst.drop (i + 1) := by
      rw [List.set_eq_take_append_cons_drop, if_pos hi]
    have hti : (dst.take i).length = i := by simp; omega
    rw [hset, List.take_append_eq_append_take, List.drop_append_eq_append_drop, hti]
    have e1 : List.take (i + 1) (dst.take i) = dst.take i :=
      List.take_of_length_le (by rw [hti]; omega)
    have e2 : i + 1 - i = 1 := by omega
    have e4 : List.drop (i + 1 + rest.length) (dst.take i) = [] :=
      List.drop_eq_nil_of_le (by rw [hti]; omega)
    have e5 : i + 1 + rest.length - i = rest.length + 1 := by omega
    have e6 : List.drop (rest.length + 1) (c :: dst.drop (i + 1)) =
        dst.drop (i + (rest.length + 1)) := by
      rw [List.drop_succ_cons, List.drop_drop]
      congr 1
      omega
    rw [e1, e2, e4, e5, e6]
    simp
/-- The C string of a buffer whose head byte is not 0. -/
theorem cstr_cons_ne (a : Nat) (t : List Nat) (ha : (a != 0) = true) :
    cstr (a :: t) = a :: cstr t := by
  simp [cstr, List.takeWhile_cons, ha]

/-- The C string of a buffer whose head byte is 0 is empty. -/
theorem cstr_cons_zero (t : List Nat) : cstr (0 :: t) = [] := by
  simp [cstr]

/-- The C string of a buffer holding a 0-terminated message: the message. -/
theorem cstr_append_cons_zero (m rest : List Nat) (h : ∀ c ∈ m, c ≠ 0) :
    cstr (m ++ 0 :: rest) = m := by
  induction m with
  | nil => simp [cstr]
  | cons a t ih =>
    have ha : (a != 0) = true := by
      simpa using h a (List.mem_cons_self a t)
    rw [List.cons_append, cstr_cons_ne a _ ha]
    exact congrArg (a :: ·) (ih (fun c hc => h c (List.mem_cons_of_mem a hc)))

/-- Zeroing a byte at or beyond the C string's terminator does not change
the C string. -/
theorem cstr_set_zero_of_le (l : List Nat) : ∀ (i : Nat),
    (cstr l).length ≤ i → cstr (l.set i 0) = cstr l := by
  induction l with
  | nil => intro i _; simp
  | cons a t ih =>
    intro i h
    by_cases ha : (a != 0) = true
    · rw [cstr_cons_ne a t ha] at h ⊢
      simp only [List.length_cons] at h
      match i, h with
      | j + 1, h =>
        rw [List.set_cons_succ, cstr_cons_ne a _ ha]
        exact congrArg (a :: ·) (ih j (by omega))
    · have ha0 : a = 0 := by simpa using ha
      subst ha0
      match i with
      | 0 => simp [cstr]
      | j + 1 => simp [cstr]

/-- A fold over a table with no matching name keeps its accumulator. -/
theorem foldl_lookup_const (name : List Nat) :
    ∀ (table : CommandTable) (acc : Handler), (∀ e ∈ table, e.1 ≠ name) →
      table.foldl (fun acc e => if e.1 = name then e.2 else acc) acc = acc := by
  intro table
  induction table with
  | nil => intro acc _; rfl
  | cons e t ih =>
    intro acc h
    have he : e.1 ≠ name := h e (List.mem_cons_self e t)
    simp only [List.foldl_cons, if_neg he]
    exact ih acc (fun x hx => h x (List.mem_cons_of_mem e hx))

/-- A name matching no table entry falls through to the not-found handler. -/
theorem lookup_default (table : CommandTable) (name : List Nat)
    (h : ∀ e ∈ table, e.1 ≠ name) :
    lookupCommand table name = ResponseError_CmdNotFound :=
  foldl_lookup_const name table ResponseError_CmdNotFound h

/-- On a non-blank line, the response component of `InvokeCommand` is the
handler's output, overwritten by the "argument invalid" message when the
handler reports `CLI_RESULT_INVALID`, with the forced final terminator. -/
theorem InvokeCommand_resp_nonblank (capR : Nat) (table : CommandTable)
    (buf resp : List Nat) (h : trimmedToken (cstr buf) ≠ []) :
    (InvokeCommand capR table buf resp).2 =
      (if (lookupCommand table (cmdName (trimmedToken (cstr buf)))
            (cmdArgOpt (trimmedToken (cstr buf))) resp).2 = CLIResult.invalid
       then ResponseError (lookupCommand table (cmdName (trimmedToken (cstr buf)))
            (cmdArgOpt (trimmedToken (cstr buf))) resp).1 1
       else (lookupCommand table (cmdName (trimmedToken (cstr buf)))
            (cmdArgOpt (trimmedToken (cstr buf))) resp).1).set (capR - 1) 0 := by
  have h0 : ¬ ((trimmedToken (cstr buf)).length = 0) := by
    simpa [List.length_eq_zero] using h
  simp only [InvokeCommand, if_neg h0]
/-- C9: for a dispatched line whose trimmed token is non-empty, if the name
matches no table entry the stored response reads as the fixed "Error :
Command not found." message; and whenever the selected handler reports
`CLI_RESULT_INVALID`, whatever bytes `w` it left in the response buffer, the
stored response reads as the fixed "Error : Argument invalid." message. -/
theorem C9_error_messages (capR : Nat) (table : CommandTable)
    (buf resp : List Nat) (hcap : 27 ≤ capR) (hlen : resp.length = capR)
    (hs2 : trimmedToken (cstr buf) ≠ []) :
    ((∀ e ∈ table, e.1 ≠ cmdName (trimmedToken (cstr buf))) →
      cstr (InvokeCommand capR table buf resp).2 = ErrorMessage_CmdNotFound) ∧
    (∀ w : List Nat, w.length = capR →
      lookupCommand table (cmdName (trimmedToken (cstr buf)))
          (cmdArgOpt (trimmedToken (cstr buf))) resp = (w, CLIResult.invalid) →
      cstr (InvokeCommand capR table buf resp).2 = ErrorMessage_ArgInvalid) := by
  constructor
  · intro hnone
    rw [InvokeCommand_resp_nonblank capR table buf resp hs2]
    rw [lookup_default table _ hnone]
    rw [show ResponseError_CmdNotFound (cmdArgOpt (trimmedToken (cstr buf))) resp
          = (ResponseError resp 0, CLIResult.ok) from rfl]
    rw [if_neg (fun h => CLIResult.noConfusion h)]
    have h26 : ErrorMessage_CmdNotFound.length = 26 := rfl
    have hmsg : (ResponseError resp 0, CLIResult.ok).1 =
        ErrorMessage_CmdNotFound ++ 0 :: resp.drop 27 := by
      simp only [ResponseError, if_pos rfl]
      rw [storeAt_eq _ resp 0 (by simp [hlen, h26]; omega)]
      simp [h26]
    rw [hmsg]
    have hc : cstr (ErrorMessage_CmdNotFound ++ 0 :: resp.drop 27) =
        ErrorMessage_CmdNotFound := cstr_append_cons_zero _ _ (by decide)
    rw [cstr_set_zero_of_le _ _ (by rw [hc, h26]; omega), hc]
  · intro w hw hinv
    rw [InvokeCommand_resp_nonblank capR table buf resp hs2, hinv]
    rw [if_pos rfl]
    have h25 : ErrorMessage_ArgInvalid.length = 25 := rfl
    have hmsg : ResponseError (w, CLIResult.invalid).1 1 =
        ErrorMessage_ArgInvalid ++ 0 :: w.drop 26 := by
      simp only [ResponseError, if_neg (by omega : ¬(1 : Nat) = 0), if_pos rfl]
      rw [storeAt_eq _ w 0 (by simp [hw, h25]; omega)]
      simp [h25]
    rw [hmsg]
    have hc : cstr (ErrorMessage_ArgInvalid ++ 0 :: w.drop 26) =
        ErrorMessage_ArgInvalid := cstr_append_cons_zero _ _ (by decide)
    rw [cstr_set_zero_of_le _ _ (by rw [hc, h25]; omega), hc]
/-- Witness for C9: the unknown command "x" yields the not-found message;
"GET_LOG x" makes `TEST` return `CLI_RESULT_INVALID` and yields the
argument-invalid message. -/
theorem C9_error_messages_witness :
    cstr (InvokeCommand 32 CommandSet [120, 0] (List.replicate 32 0)).2 =
      ErrorMessage_CmdNotFound ∧
    cstr (InvokeCommand 32 CommandSet (GETLOG_name ++ [32, 120, 0])
        (List.replicate 32 0)).2 = ErrorMessage_ArgInvalid :=
  ⟨(C9_error_messages 32 CommandSet [120, 0] (List.replicate 32 0)
      (by decide) (by decide) (by decide)).1 (by decide),
   (C9_error_messages 32 CommandSet (GETLOG_name ++ [32, 120, 0])
      (List.replicate 32 0) (by decide) (by decide) (by decide)).2
      (List.replicate 32 0) (by decide) (by decide)⟩
/-- Setting any byte to 0 keeps every byte that already reads 0. -/
theorem set_zero_keeps_zero (l : List Nat) (i k : Nat) (h : l[k]? = some 0) :
    (l.set i 0)[k]? = some 0 := by
  by_cases hik : i = k
  · subst hik
    by_cases hl : i < l.length
    · rw [List.getElem?_set_self hl]
    · rw [List.set_eq_of_length_le (by omega)]
      exact h
  · rw [List.getElem?_set_ne hik]
    exact h

/-- `setRangeZero` keeps buffer length. -/
theorem setRangeZero_length (n : Nat) : ∀ (l : List Nat) (i : Nat),
    (setRangeZero l i n).length = l.length := by
  induction n with
  | zero => intro l i; rfl
  | succ m ih =>
    intro l i
    rw [setRangeZero, ih, List.length_set]

/-- `setRangeZero` keeps every byte that already reads 0. -/
theorem setRangeZero_keeps_zero (n : Nat) : ∀ (l : List Nat) (i k : Nat),
    l[k]? = some 0 → (setRangeZero l i n)[k]? = some 0 := by
  induction n with
  | zero => intro l i k h; exact h
  | succ m ih =>
    intro l i k h
    exact ih _ _ _ (set_zero_keeps_zero l i k h)

/-- `InvokeCommand` keeps the command-buffer length and only writes zeros
into it (terminators for trailing spaces and the name/argument split). -/
theorem InvokeCommand_buf_effects (capR : Nat) (table : CommandTable)
    (buf resp : List Nat) :
    (InvokeCommand capR table buf resp).1.length = buf.length ∧
    (∀ k : Nat, buf[k]? = some 0 → (InvokeCommand capR table buf resp).1[k]? = some 0) := by
  simp only [InvokeCommand]
  split
  · exact ⟨setRangeZero_length _ _ _, fun k h => setRangeZero_keeps_zero _ _ _ _ h⟩
  · split
    · exact ⟨setRangeZero_length _ _ _, fun k h => setRangeZero_keeps_zero _ _ _ _ h⟩
    · constructor
      · rw [List.length_set, setRangeZero_length]
      · intro k h
        apply set_zero_keeps_zero
        apply setRangeZero_keeps_zero
        exact h

/-- A string with a 0 byte at index `n` has C-string length at most `n`. -/
theorem takeWhile_length_le_of_zero : ∀ (l : List Nat) (n : Nat),
    l[n]? = some 0 → (l.takeWhile (fun c => c != 0)).length ≤ n := by
  intro l
  induction l with
  | nil => intro n h; simp at h
  | cons a t ih =>
    intro n h
    match n with
    | 0 =>
      simp at h
      subst h
      simp [List.takeWhile_cons]
    | m + 1 =>
      by_cases ha : (a != 0) = true
      · simp only [List.takeWhile_cons, ha, if_true, List.length_cons]
        have := ih m (by simpa using h)
        omega
      · simp [List.takeWhile_cons, ha]

/-- The echo fragment starting at `i` ends by the 0 byte at `j`. -/
theorem cstrAt_length_le (l : List Nat) (i j : Nat) (hij : i ≤ j)
    (h : l[j]? = some 0) : (cstrAt l i).length ≤ j - i := by
  have : (l.drop i)[j - i]? = some 0 := by
    rw [List.getElem?_drop]
    have : i + (j - i) = j := by omega
    rw [this]
    exact h
  exact takeWhile_length_le_of_zero _ _ this
/-- The state invariant behind claims about the cursors and the zero fill:
buffer length is the capacity; `0 ≤ CmdBufIdxOut ≤ CmdBufIdxIn ≤ capacity`;
every buffer byte from the write index on is 0; and a full buffer can only
occur closed (BUSY set) with the overflow either still flagged or already
drained past the echo phase. -/
def CLI_Inv (cap : Nat) (s : CLIState) : Prop :=
  s.CommandBuffer.length = cap ∧
  s.CmdBufIdxOut ≤ s.CmdBufIdxIn ∧
  s.CmdBufIdxIn ≤ cap ∧
  (∀ k : Nat, s.CmdBufIdxIn ≤ k → k < cap → s.CommandBuffer[k]? = some 0) ∧
  (s.CmdBufIdxIn = cap → s.CLI_Status.busy = true) ∧
  (s.CmdBufIdxIn = cap → s.CLI_Status.cmdovf = true ∨ s.CLI_Status.echo = false)

/-- `BufferInput` from an in-range write index on a zero-filled tail: the
index only grows, never passes the capacity, the tail beyond it stays
zero-filled, and a success verdict means the buffer did not fill up. -/
theorem BufferInput_inv (cap : Nat) : ∀ (inp buf : List Nat) (i : Nat),
    i < cap → buf.length = cap →
    (∀ k : Nat, i ≤ k → k < cap → buf[k]? = some 0) →
    ((BufferInput cap inp buf i).1.length = cap ∧
     i ≤ (BufferInput cap inp buf i).2.1 ∧
     (BufferInput cap inp buf i).2.1 ≤ cap ∧
     (∀ k : Nat, (BufferInput cap inp buf i).2.1 ≤ k → k < cap →
        (BufferInput cap inp buf i).1[k]? = some 0) ∧
     ((BufferInput cap inp buf i).2.2 = CLIResult.ok →
        (BufferInput cap inp buf i).2.1 < cap)) := by
  intro inp
  induction inp with
  | nil =>
    intro buf i hi hlen hz
    exact ⟨hlen, Nat.le_refl i, Nat.le_of_lt hi, hz, fun _ => hi⟩
  | cons c rest ih =>
    intro buf i hi hlen hz
    by_cases hv : IS_CHAR_VALID c
    · by_cases hc : cap ≤ i + 1
      · simp only [BufferInput, hv, if_true, if_pos hc]
        refine ⟨by rw [List.length_set]; exact hlen, Nat.le_succ i, by omega, ?_, ?_⟩
        · intro k h1 h2
          exact absurd h2 (by omega)
        · intro hok
          exact absurd hok (by decide)
      · simp only [BufferInput, hv, if_true, if_neg hc]
        have hz1 : ∀ k : Nat, i + 1 ≤ k → k < cap → (buf.set i c)[k]? = some 0 := by
          intro k h1 h2
          rw [List.getElem?_set_ne (by omega)]
          exact hz k (by omega) h2
        have := ih (buf.set i c) (i + 1) (by omega) (by rw [List.length_set]; exact hlen) hz1
        exact ⟨this.1, Nat.le_trans (Nat.le_succ i) this.2.1, this.2.2.1, this.2.2.2.1,
               this.2.2.2.2⟩
    · simp only [BufferInput, hv, if_false]
      exact ih buf i hi hlen hz
/-- `CLI_Input` guarded no-op: while BUSY, or on empty input, nothing
happens and `USBD_OK` is returned. -/
theorem CLI_Input_noop (cap capR : Nat) (table : CommandTable)
    (pInput : List Nat) (s : CLIState)
    (h : s.CLI_Status.busy = true ∨ pInput.length = 0) :
    CLI_Input cap capR table pInput s = (s, USBD_OK) := by
  rcases h with h | h
  · simp [CLI_Input, h]
  · simp [CLI_Input, h]

/-- `CLI_Input` on the overflow path: the buffer and index come from
`BufferInput`, BUSY and CMDOVF are set, `USBD_OK` is returned. -/
theorem CLI_Input_fail (cap capR : Nat) (table : CommandTable)
    (pInput : List Nat) (s : CLIState)
    (hb : s.CLI_Status.busy = false) (hl : pInput.length ≠ 0)
    (hr : (BufferInput cap pInput s.CommandBuffer s.CmdBufIdxIn).2.2 ≠ CLIResult.ok) :
    CLI_Input cap capR table pInput s =
      ({ s with
           CommandBuffer := (BufferInput cap pInput s.CommandBuffer s.CmdBufIdxIn).1
           CmdBufIdxIn := (BufferInput cap pInput s.CommandBuffer s.CmdBufIdxIn).2.1
           CLI_Status := { s.CLI_Status with busy := true, cmdovf := true } },
       USBD_OK) := by
  simp [CLI_Input, hb, hl, hr]

/-- `CLI_Input` with no terminator found: only the buffer and the write
index change. -/
theorem CLI_Input_nodisp (cap capR : Nat) (table : CommandTable)
    (pInput : List Nat) (s : CLIState)
    (hb : s.CLI_Status.busy = false) (hl : pInput.length ≠ 0)
    (hr : (BufferInput cap pInput s.CommandBuffer s.CmdBufIdxIn).2.2 = CLIResult.ok)
    (hft : findTerm String_Newline
        (cstr (BufferInput cap pInput s.CommandBuffer s.CmdBufIdxIn).1) = none) :
    CLI_Input cap capR table pInput s =
      ({ s with
           CommandBuffer := (BufferInput cap pInput s.CommandBuffer s.CmdBufIdxIn).1
           CmdBufIdxIn := (BufferInput cap pInput s.CommandBuffer s.CmdBufIdxIn).2.1 },
       USBD_OK) := by
  simp [CLI_Input, hb, hl, hr, hft]

/-- `CLI_Input` on the dispatch path: the found terminator byte is zeroed,
`InvokeCommand` rewrites the buffers, `pResponse` aims at the response
buffer, BUSY and BREAK are set. -/
theorem CLI_Input_disp (cap capR : Nat) (table : CommandTable)
    (pInput : List Nat) (s : CLIState) (p : Nat)
    (hb : s.CLI_Status.busy = false) (hl : pInput.length ≠ 0)
    (hr : (BufferInput cap pInput s.CommandBuffer s.CmdBufIdxIn).2.2 = CLIResult.ok)
    (hft : findTerm String_Newline
        (cstr (BufferInput cap pInput s.CommandBuffer s.CmdBufIdxIn).1) = some p) :
    CLI_Input cap capR table pInput s =
      ({ s with
           CommandBuffer := (InvokeCommand capR table
             ((BufferInput cap pInput s.CommandBuffer s.CmdBufIdxIn).1.set p 0)
             s.ResponseBuffer).1
           ResponseBuffer := (InvokeCommand capR table
             ((BufferInput cap pInput s.CommandBuffer s.CmdBufIdxIn).1.set p 0)
             s.ResponseBuffer).2
           CmdBufIdxIn := (BufferInput cap pInput s.CommandBuffer s.CmdBufIdxIn).2.1
           pResponse := ResponsePtr.respBuffer
           CLI_Status := { s.CLI_Status with busy := true, brk := true } },
       USBD_OK) := by
  simp [CLI_Input, hb, hl, hr, hft]
/-- Every `CLI_Input` call preserves the state invariant. -/
theorem CLI_Inv_input (cap capR : Nat) (table : CommandTable)
    (pInput : List Nat) (s : CLIState) (h : CLI_Inv cap s) :
    CLI_Inv cap (CLI_Input cap capR table pInput s).1 := by
  obtain ⟨hlen, hoi, hic, hz, hb, he⟩ := h
  by_cases hbusy : s.CLI_Status.busy = true
  · rw [CLI_Input_noop cap capR table pInput s (Or.inl hbusy)]
    exact ⟨hlen, hoi, hic, hz, hb, he⟩
  · have hbf : s.CLI_Status.busy = false := by
      revert hbusy; cases s.CLI_Status.busy <;> simp
    by_cases hl : pInput.length = 0
    · rw [CLI_Input_noop cap capR table pInput s (Or.inr hl)]
      exact ⟨hlen, hoi, hic, hz, hb, he⟩
    · have hin : s.CmdBufIdxIn < cap := by
        rcases Nat.lt_or_ge s.CmdBufIdxIn cap with hlt | hge
        · exact hlt
        · have heq : s.CmdBufIdxIn = cap := by omega
          rw [hb heq] at hbf
          exact absurd hbf (by simp)
      have bi := BufferInput_inv cap pInput s.CommandBuffer s.CmdBufIdxIn hin hlen hz
      by_cases hr : (BufferInput cap pInput s.CommandBuffer s.CmdBufIdxIn).2.2 =
          CLIResult.ok
      · cases hft : findTerm String_Newline
            (cstr (BufferInput cap pInput s.CommandBuffer s.CmdBufIdxIn).1) with
        | none =>
          rw [CLI_Input_nodisp cap capR table pInput s hbf hl hr hft]
          refine ⟨bi.1, Nat.le_trans hoi bi.2.1, bi.2.2.1, bi.2.2.2.1, ?_, ?_⟩
          · intro hcapeq
            have hc2 : (BufferInput cap pInput s.CommandBuffer s.CmdBufIdxIn).2.1 =
                cap := hcapeq
            have hlt2 := bi.2.2.2.2 hr
            omega
          · intro hcapeq
            have hc2 : (BufferInput cap pInput s.CommandBuffer s.CmdBufIdxIn).2.1 =
                cap := hcapeq
            have hlt2 := bi.2.2.2.2 hr
            omega
        | some p =>
          rw [CLI_Input_disp cap capR table pInput s p hbf hl hr hft]
          have iv := InvokeCommand_buf_effects capR table
            ((BufferInput cap pInput s.CommandBuffer s.CmdBufIdxIn).1.set p 0)
            s.ResponseBuffer
          refine ⟨?_, Nat.le_trans hoi bi.2.1, bi.2.2.1, ?_, ?_, ?_⟩
          · rw [iv.1, List.length_set]
            exact bi.1
          · intro k h1 h2
            apply iv.2
            apply set_zero_keeps_zero
            exact bi.2.2.2.1 k h1 h2
          · intro hcapeq
            have hc2 : (BufferInput cap pInput s.CommandBuffer s.CmdBufIdxIn).2.1 =
                cap := hcapeq
            have hlt2 := bi.2.2.2.2 hr
            omega
          · intro hcapeq
            have hc2 : (BufferInput cap pInput s.CommandBuffer s.CmdBufIdxIn).2.1 =
                cap := hcapeq
            have hlt2 := bi.2.2.2.2 hr
            omega
      · rw [CLI_Input_fail cap capR table pInput s hbf hl hr]
        exact ⟨bi.1, Nat.le_trans hoi bi.2.1, bi.2.2.1, bi.2.2.2.1,
               fun _ => rfl, fun _ => Or.inl rfl⟩

/-- Every `CLI_Output` call preserves the state invariant. -/
theorem CLI_Inv_output (cap capR : Nat) (s : CLIState) (hcap : 0 < cap)
    (h : CLI_Inv cap s) : CLI_Inv cap (CLI_Output cap capR s).1 := by
  obtain ⟨hlen, hoi, hic, hz, hb, he⟩ := h
  by_cases hovf : s.CLI_Status.cmdovf = true
  · simp only [CLI_Output, hovf, if_true]
    exact ⟨hlen, hoi, hic, hz, hb, fun _ => Or.inr rfl⟩
  · have hovff : s.CLI_Status.cmdovf = false := by
      revert hovf; cases s.CLI_Status.cmdovf <;> simp
    by_cases hecho : s.CLI_Status.echo = true
    · by_cases hlt : s.CmdBufIdxOut < s.CmdBufIdxIn
      · -- the echo fragment: lands inside the appended bytes
        have hinlt : s.CmdBufIdxIn < cap := by
          rcases Nat.lt_or_ge s.CmdBufIdxIn cap with hlt2 | hge
          · exact hlt2
          · have heq : s.CmdBufIdxIn = cap := by omega
            rcases he heq with hc | hne
            · rw [hc] at hovff; exact absurd hovff (by simp)
            · rw [hne] at hecho; exact absurd hecho (by simp)
        have hfrag : s.CmdBufIdxOut + (cstrAt s.CommandBuffer s.CmdBufIdxOut).length ≤
            s.CmdBufIdxIn := by
          have hz0 : s.CommandBuffer[s.CmdBufIdxIn]? = some 0 :=
            hz s.CmdBufIdxIn (Nat.le_refl _) hinlt
          have := cstrAt_length_le s.CommandBuffer s.CmdBufIdxOut s.CmdBufIdxIn
            (Nat.le_of_lt hlt) hz0
          omega
        simp only [CLI_Output, hovff, Bool.false_eq_true, if_false, hecho, if_true,
          hlt]
        by_cases hbrk : s.CLI_Status.brk = true
        · simp only [hbrk, if_true]
          by_cases hflen : 0 < (cstrAt s.CommandBuffer s.CmdBufIdxOut).length
          · simp only [hflen, if_true]
            exact ⟨hlen, hfrag, hic, hz, hb, fun _ => Or.inr rfl⟩
          · simp only [hflen, if_false]
            exact ⟨hlen, hfrag, hic, hz, hb, fun _ => Or.inr rfl⟩
        · have hbrkf : s.CLI_Status.brk = false := by
            revert hbrk; cases s.CLI_Status.brk <;> simp
          simp only [hbrkf, Bool.false_eq_true, if_false]
          exact ⟨hlen, hfrag, hic, hz, hb, he⟩
      · simp only [CLI_Output, hovff, Bool.false_eq_true, if_false, hecho, if_true,
          hlt]
        exact ⟨hlen, hoi, hic, hz, hb, he⟩
    · have hechof : s.CLI_Status.echo = false := by
        revert hecho; cases s.CLI_Status.echo <;> simp
      by_cases hnl : s.CLI_Status.newline = true
      · simp only [CLI_Output, hovff, Bool.false_eq_true, if_false, hechof, hnl,
          if_true]
        exact ⟨hlen, hoi, hic, hz, hb, fun hq => by
          rcases he hq with hc | _
          · rw [hc] at hovff; exact absurd hovff (by simp)
          · exact Or.inr rfl⟩
      · have hnlf : s.CLI_Status.newline = false := by
          revert hnl; cases s.CLI_Status.newline <;> simp
        by_cases hrsp : s.CLI_Status.response = true
        · simp only [CLI_Output, hovff, Bool.false_eq_true, if_false, hechof, hnlf,
            hrsp, if_true]
          exact ⟨hlen, hoi, hic, hz, hb, fun hq => Or.inr rfl⟩
        · have hrspf : s.CLI_Status.response = false := by
            revert hrsp; cases s.CLI_Status.response <;> simp
          by_cases hpr : s.CLI_Status.prompt = true
          · simp only [CLI_Output, hovff, Bool.false_eq_true, if_false, hechof, hnlf,
              hrspf, hpr, if_true]
            refine ⟨List.length_replicate cap 0, Nat.le_refl 0, Nat.zero_le cap,
              ?_, ?_, ?_⟩
            · intro k _ hk
              show (List.replicate cap (0 : Nat))[k]? = some 0
              rw [List.getElem?_replicate, if_pos hk]
            · intro hq
              have h0 : (0 : Nat) = cap := hq
              omega
            · intro hq
              have h0 : (0 : Nat) = cap := hq
              omega
          · have hprf : s.CLI_Status.prompt = false := by
              revert hpr; cases s.CLI_Status.prompt <;> simp
            simp only [CLI_Output, hovff, Bool.false_eq_true, if_false, hechof, hnlf,
              hrspf, hprf]
            exact ⟨hlen, hoi, hic, hz, fun _ => rfl, fun hq => by
              rcases he hq with hc | _
              · rw [hc] at hovff; exact absurd hovff (by simp)
              · exact Or.inr rfl⟩
/-- The states reachable from the process-initial state (zero-initialized
globals) by any interleaving of `CLI_Input` and `CLI_Output` calls. -/
inductive Reachable (cap capR : Nat) (table : CommandTable) : CLIState → Prop where
  | init : Reachable cap capR table (initState cap capR)
  | input (pInput : List Nat) {s : CLIState} :
      Reachable cap capR table s →
      Reachable cap capR table (CLI_Input cap capR table pInput s).1
  | output {s : CLIState} :
      Reachable cap capR table s →
      Reachable cap capR table (CLI_Output cap capR s).1

/-- The invariant holds in every reachable state. -/
theorem Reachable_inv (cap capR : Nat) (table : CommandTable) (s : CLIState)
    (hcap : 0 < cap) (h : Reachable cap capR table s) : CLI_Inv cap s := by
  induction h with
  | init =>
    refine ⟨List.length_replicate cap 0, Nat.le_refl 0, Nat.zero_le cap, ?_, ?_, ?_⟩
    · intro k _ hk
      show (List.replicate cap (0 : Nat))[k]? = some 0
      rw [List.getElem?_replicate, if_pos hk]
    · intro hq
      have h0 : (0 : Nat) = cap := hq
      omega
    · intro hq
      have h0 : (0 : Nat) = cap := hq
      omega
  | input pInput _ ih => exact CLI_Inv_input _ _ _ pInput _ ih
  | output _ ih => exact CLI_Inv_output _ _ _ hcap ih

/-- C8: in every state reachable from the initial state through `CLI_Input`
and `CLI_Output` calls, the cursors satisfy
`0 ≤ CmdBufIdxOut ≤ CmdBufIdxIn ≤ CLI_COMMAND_LENGTH` (the capacity);
each operation preserves the property since every reachable state satisfies
it. -/
theorem C8_cursor_invariant (cap capR : Nat) (table : CommandTable)
    (s : CLIState) (hcap : 0 < cap) (h : Reachable cap capR table s) :
    s.CmdBufIdxOut ≤ s.CmdBufIdxIn ∧ s.CmdBufIdxIn ≤ cap := by
  have hi := Reachable_inv cap capR table s hcap h
  exact ⟨hi.2.1, hi.2.2.1⟩

/-- Witness for C8: the invariant holds after one input call and one output
call from the initial state at capacity 8. -/
theorem C8_cursor_invariant_witness :
    (CLI_Output 8 8 (CLI_Input 8 8 CommandSet [97] (initState 8 8)).1).1.CmdBufIdxOut ≤
      (CLI_Output 8 8 (CLI_Input 8 8 CommandSet [97] (initState 8 8)).1).1.CmdBufIdxIn ∧
    (CLI_Output 8 8 (CLI_Input 8 8 CommandSet [97] (initState 8 8)).1).1.CmdBufIdxIn ≤ 8 :=
  C8_cursor_invariant 8 8 CommandSet _ (by decide)
    (Reachable.output (Reachable.input [97] Reachable.init))

/-- C10: in every reachable state, the command-buffer bytes from the write
index up to the capacity read 0 (first conjunct); hence the `strstr`
terminator scan stays within the appended bytes — the C string from the
buffer start is no longer than the write index whenever the buffer is not
full (second conjunct) — and every echo fragment the ECHO branch can return
(error mask clear, ECHO set, read cursor behind write cursor) lies entirely
within the appended bytes: the fragment's `strlen` stops by the write index
(third conjunct). -/
theorem C10_zero_fill (cap capR : Nat) (table : CommandTable)
    (s : CLIState) (hcap : 0 < cap) (h : Reachable cap capR table s) :
    (∀ k : Nat, s.CmdBufIdxIn ≤ k → k < cap → s.CommandBuffer[k]? = some 0) ∧
    (s.CmdBufIdxIn < cap → (cstr s.CommandBuffer).length ≤ s.CmdBufIdxIn) ∧
    (s.CLI_Status.cmdovf = false → s.CLI_Status.echo = true →
      s.CmdBufIdxOut < s.CmdBufIdxIn →
      s.CmdBufIdxOut + (cstrAt s.CommandBuffer s.CmdBufIdxOut).length ≤
        s.CmdBufIdxIn) := by
  have hi := Reachable_inv cap capR table s hcap h
  obtain ⟨hlen, hoi, hic, hz, hb, he⟩ := hi
  refine ⟨hz, ?_, ?_⟩
  · intro hlt
    exact takeWhile_length_le_of_zero s.CommandBuffer s.CmdBufIdxIn
      (hz s.CmdBufIdxIn (Nat.le_refl _) hlt)
  · intro hovf hecho hlt
    have hinlt : s.CmdBufIdxIn < cap := by
      rcases Nat.lt_or_ge s.CmdBufIdxIn cap with hlt2 | hge
      · exact hlt2
      · have heq : s.CmdBufIdxIn = cap := by omega
        rcases he heq with hc | hne
        · rw [hc] at hovf; exact absurd hovf (by simp)
        · rw [hne] at hecho; exact absurd hecho (by simp)
    have := cstrAt_length_le s.CommandBuffer s.CmdBufIdxOut s.CmdBufIdxIn
      (Nat.le_of_lt hlt) (hz s.CmdBufIdxIn (Nat.le_refl _) hinlt)
    omega

/-- Witness for C10: the conjuncts hold after feeding "ab" from the initial
state at capacity 8. -/
theorem C10_zero_fill_witness :
    (∀ k : Nat, (CLI_Input 8 8 CommandSet [97, 98] (initState 8 8)).1.CmdBufIdxIn ≤ k →
      k < 8 → (CLI_Input 8 8 CommandSet [97, 98] (initState 8 8)).1.CommandBuffer[k]? =
        some 0) ∧
    ((CLI_Input 8 8 CommandSet [97, 98] (initState 8 8)).1.CmdBufIdxIn < 8 →
      (cstr (CLI_Input 8 8 CommandSet [97, 98] (initState 8 8)).1.CommandBuffer).length ≤
        (CLI_Input 8 8 CommandSet [97, 98] (initState 8 8)).1.CmdBufIdxIn) ∧
    ((CLI_Input 8 8 CommandSet [97, 98] (initState 8 8)).1.CLI_Status.cmdovf = false →
      (CLI_Input 8 8 CommandSet [97, 98] (initState 8 8)).1.CLI_Status.echo = true →
      (CLI_Input 8 8 CommandSet [97, 98] (initState 8 8)).1.CmdBufIdxOut <
        (CLI_Input 8 8 CommandSet [97, 98] (initState 8 8)).1.CmdBufIdxIn →
      (CLI_Input 8 8 CommandSet [97, 98] (initState 8 8)).1.CmdBufIdxOut +
        (cstrAt (CLI_Input 8 8 CommandSet [97, 98] (initState 8 8)).1.CommandBuffer
          (CLI_Input 8 8 CommandSet [97, 98] (initState 8 8)).1.CmdBufIdxOut).length ≤
        (CLI_Input 8 8 CommandSet [97, 98] (initState 8 8)).1.CmdBufIdxIn) :=
  C10_zero_fill 8 8 CommandSet _ (by decide) (Reachable.input [97, 98] Reachable.init)
/-- Accepted bytes are never the 0 terminator. -/
theorem valid_ne_zero (c : Nat) (h : IS_CHAR_VALID c = true) : (c != 0) = true := by
  simp only [IS_CHAR_VALID, Bool.or_eq_true, beq_iff_eq, Bool.and_eq_true,
    decide_eq_true_eq] at h
  simp only [bne_iff_ne, ne_eq]
  rcases h with h | h | h <;> omega

/-- `BufferInput` without overflow: the accepted bytes (the valid ones, in
order) are copied at the write index, which advances by their count. -/
theorem BufferInput_ok (cap : Nat) : ∀ (inp buf : List Nat) (i : Nat),
    i + (inp.filter IS_CHAR_VALID).length < cap →
    BufferInput cap inp buf i =
      (storeAt buf i (inp.filter IS_CHAR_VALID),
       i + (inp.filter IS_CHAR_VALID).length, CLIResult.ok) := by
  intro inp
  induction inp with
  | nil => intro buf i h; simp [BufferInput, storeAt]
  | cons c rest ih =>
    intro buf i h
    by_cases hv : IS_CHAR_VALID c
    · have hfil : (c :: rest).filter IS_CHAR_VALID =
          c :: rest.filter IS_CHAR_VALID := by
        simp [List.filter_cons, hv]
      rw [hfil] at h ⊢
      simp only [List.length_cons] at h
      have hc : ¬ cap ≤ i + 1 := by omega
      simp only [BufferInput, hv, if_true, if_neg hc]
      rw [ih (buf.set i c) (i + 1) (by omega)]
      simp only [storeAt, List.length_cons]
      have harith : i + 1 + (List.filter IS_CHAR_VALID rest).length =
          i + ((List.filter IS_CHAR_VALID rest).length + 1) := by omega
      rw [harith]
    · have hfil : (c :: rest).filter IS_CHAR_VALID = rest.filter IS_CHAR_VALID := by
        simp [List.filter_cons, hv]
      rw [hfil] at h ⊢
      simp only [BufferInput, hv, if_false]
      exact ih buf i h
/-- Appending `f` at the end of the framed bytes `G` in a zero-filled
buffer of capacity `cap`. -/
theorem storeAt_mid (cap : Nat) (G f : List Nat) (h : G.length + f.length < cap) :
    storeAt (G ++ List.replicate (cap - G.length) 0) G.length f =
      (G ++ f) ++ List.replicate (cap - (G.length + f.length)) 0 := by
  have hGc : G.length ≤ cap := by omega
  have hlen : (G ++ List.replicate (cap - G.length) 0).length = cap := by
    simp [List.length_append, List.length_replicate]
    omega
  rw [storeAt_eq f _ G.length (by rw [hlen]; omega)]
  have e1 : (G ++ List.replicate (cap - G.length) 0).take G.length = G := by
    rw [List.take_append_of_le_length (Nat.le_refl _), List.take_of_length_le (Nat.le_refl _)]
  have e2 : (G ++ List.replicate (cap - G.length) 0).drop (G.length + f.length) =
      List.replicate (cap - (G.length + f.length)) 0 := by
    rw [List.drop_append_eq_append_drop]
    rw [List.drop_eq_nil_of_le (by omega), List.drop_replicate]
    have : cap - G.length - (G.length + f.length - G.length) =
        cap - (G.length + f.length) := by omega
    rw [this, List.nil_append]
  rw [e1, e2, List.append_assoc]

/-- The C string of framed bytes followed by at least one 0. -/
theorem cstr_block (G : List Nat) (k : Nat) (hk : 0 < k)
    (h : ∀ c ∈ G, (c != 0) = true) :
    cstr (G ++ List.replicate k 0) = G := by
  match k, hk with
  | m + 1, _ =>
    show cstr (G ++ 0 :: List.replicate m 0) = G
    exact cstr_append_cons_zero G _ (fun c hc => by simpa using h c hc)

/-- Taking commutes with setting one byte (a set at or past the cut is a
no-op on the prefix). -/
theorem take_set (l : List Nat) : ∀ (i K v : Nat),
    (l.set i v).take K = (l.take K).set i v := by
  induction l with
  | nil => intro i K v; simp
  | cons a t ih =>
    intro i K v
    match i with
    | 0 =>
      rw [List.set_cons_zero]
      match K with
      | 0 => simp
      | k + 1 => simp [List.take_succ_cons, List.set_cons_zero]
    | j + 1 =>
      rw [List.set_cons_succ]
      match K with
      | 0 => simp
      | k + 1 =>
        simp only [List.take_succ_cons, List.set_cons_succ]
        rw [ih j k v]
/-- `findTerm` soundness: a hit means the pattern occurs there and nowhere
earlier. -/
theorem findTerm_some_spec (pat : List Nat) : ∀ (l : List Nat) (p : Nat),
    findTerm pat l = some p →
    pat.isPrefixOf (l.drop p) = true ∧
    (∀ j, j < p → pat.isPrefixOf (l.drop j) = false) := by
  intro l
  induction l with
  | nil =>
    intro p h
    simp only [findTerm] at h
    by_cases hp : pat.isPrefixOf ([] : List Nat) = true
    · rw [if_pos hp] at h
      obtain rfl : p = 0 := by injection h; omega
      exact ⟨hp, fun j hj => absurd hj (by omega)⟩
    · rw [if_neg hp] at h
      exact Option.noConfusion h
  | cons c rest ih =>
    intro p h
    simp only [findTerm] at h
    by_cases hp : pat.isPrefixOf (c :: rest) = true
    · rw [if_pos hp] at h
      obtain rfl : p = 0 := by injection h; omega
      exact ⟨hp, fun j hj => absurd hj (by omega)⟩
    · rw [if_neg hp] at h
      match hft : findTerm pat rest with
      | none => rw [hft] at h; exact Option.noConfusion h
      | some q =>
        rw [hft] at h
        have hq : some (q + 1) = some p := h
        obtain rfl : p = q + 1 := by injection hq; omega
        obtain ⟨h1, h2⟩ := ih q hft
        refine ⟨h1, ?_⟩
        intro j hj
        match j with
        | 0 =>
          simp only [List.drop_zero]
          revert hp; cases pat.isPrefixOf (c :: rest) <;> simp
        | j' + 1 =>
          rw [List.drop_succ_cons]
          exact h2 j' (by omega)

/-- `findTerm` completeness: a first occurrence is found. -/
theorem findTerm_of_spec (pat : List Nat) : ∀ (l : List Nat) (p : Nat),
    pat.isPrefixOf (l.drop p) = true →
    (∀ j, j < p → pat.isPrefixOf (l.drop j) = false) →
    findTerm pat l = some p := by
  intro l
  induction l with
  | nil =>
    intro p h1 h2
    match p with
    | 0 => simp only [List.drop_zero] at h1; simp [findTerm, h1]
    | q + 1 =>
      have : pat.isPrefixOf ([] : List Nat) = true := by
        simpa using h1
      have h0 := h2 0 (by omega)
      simp only [List.drop_zero] at h0
      rw [h0] at this
      exact absurd this (by simp)
  | cons c rest ih =>
    intro p h1 h2
    match p with
    | 0 =>
      simp only [List.drop_zero] at h1
      simp [findTerm, h1]
    | q + 1 =>
      have h0 := h2 0 (by omega)
      simp only [List.drop_zero] at h0
      rw [List.drop_succ_cons] at h1
      have hrest : findTerm pat rest = some q :=
        ih q h1 (fun j hj => by
          have := h2 (j + 1) (by omega)
          rwa [List.drop_succ_cons] at this)
      simp [findTerm, h0, hrest]

/-- A pattern holds at the start of a cut haystack iff it fits the cut and
holds at the start of the full haystack. -/
theorem isPrefixOf_take (pat : List Nat) : ∀ (l : List Nat) (k : Nat),
    pat.isPrefixOf (l.take k) = (decide (pat.length ≤ k) && pat.isPrefixOf l) := by
  induction pat with
  | nil => intro l k; simp
  | cons c pt ih =>
    intro l k
    match l, k with
    | [], _ =>
      simp only [List.take_nil]
      cases pt <;> simp [List.isPrefixOf]
    | a :: lt, 0 =>
      simp [List.isPrefixOf]
    | a :: lt, k + 1 =>
      simp only [List.take_succ_cons, List.isPrefixOf_cons₂, ih lt k,
        List.length_cons]
      have : decide (pt.length + 1 ≤ k + 1) = decide (pt.length ≤ k) := by
        by_cases hk : pt.length ≤ k
        · simp [hk]
        · simp [hk]
      rw [this]
      cases c == a <;> cases decide (pt.length ≤ k) <;>
        cases List.isPrefixOf pt lt <;> rfl
/-- Scanning a cut haystack: the first occurrence found in the full
haystack is found in the cut exactly when the cut reaches past it. -/
theorem findTerm_take (pat l : List Nat) (p m : Nat) (hpat : 0 < pat.length)
    (hp : findTerm pat l = some p) :
    findTerm pat (l.take m) = if p + pat.length ≤ m then some p else none := by
  obtain ⟨h1, h2⟩ := findTerm_some_spec pat l p hp
  by_cases hm : p + pat.length ≤ m
  · rw [if_pos hm]
    apply findTerm_of_spec
    · rw [List.drop_take, isPrefixOf_take, h1]
      simp only [Bool.and_true, decide_eq_true_eq]
      omega
    · intro j hj
      rw [List.drop_take, isPrefixOf_take, h2 j hj]
      simp
  · rw [if_neg hm]
    match hft : findTerm pat (l.take m) with
    | none => rfl
    | some q =>
      obtain ⟨g1, g2⟩ := findTerm_some_spec pat (l.take m) q hft
      rw [List.drop_take, isPrefixOf_take] at g1
      simp only [Bool.and_eq_true, decide_eq_true_eq] at g1
      have hqp : ¬ q < p := by
        intro hlt
        have := h2 q hlt
        rw [this] at g1
        simp at g1
      have hqge : p ≤ q := by omega
      omega
/-- Taking commutes with zeroing a range. -/
theorem take_setRangeZero (n : Nat) : ∀ (l : List Nat) (i K : Nat),
    (setRangeZero l i n).take K = setRangeZero (l.take K) i n := by
  induction n with
  | zero => intro l i K; rfl
  | succ m ih =>
    intro l i K
    show (setRangeZero (l.set i 0) (i + 1) m).take K = _
    rw [ih, take_set]
    rfl

/-- `InvokeCommand` congruence: two buffers holding the same C string are
dispatched identically — same response — and their mutations only touch the
string region, so any common prefix stays common. -/
theorem InvokeCommand_congr (capR : Nat) (table : CommandTable)
    (bufA bufB resp : List Nat) (K : Nat)
    (hs : cstr bufA = cstr bufB) (ht : bufA.take K = bufB.take K) :
    (InvokeCommand capR table bufA resp).2 = (InvokeCommand capR table bufB resp).2 ∧
    (InvokeCommand capR table bufA resp).1.take K =
      (InvokeCommand capR table bufB resp).1.take K := by
  simp only [InvokeCommand, hs]
  by_cases hblank : (trimmedToken (cstr bufB)).length = 0
  · simp only [if_pos hblank]
    constructor
    · trivial
    · rw [take_setRangeZero, take_setRangeZero, ht]
  · simp only [if_neg hblank]
    cases hidx : (trimmedToken (cstr bufB)).findIdx? (fun c => c == 32) with
    | none =>
      simp only [hidx]
      constructor
      · trivial
      · rw [take_setRangeZero, take_setRangeZero, ht]
    | some j =>
      simp only [hidx]
      constructor
      · trivial
      · rw [take_set, take_set, take_setRangeZero, take_setRangeZero, ht]
/-- The observables compared by the chunking-invariance claim: the stored
response, the status flags, the read cursor, the response pointer, and the
buffer bytes through the dispatched line and its terminator region
(`p + 2` bytes: the line, the zeroed terminator byte, and the byte after). -/
def ObsEq (p : Nat) (a b : CLIState) : Prop :=
  a.ResponseBuffer = b.ResponseBuffer ∧
  a.CLI_Status = b.CLI_Status ∧
  a.CmdBufIdxOut = b.CmdBufIdxOut ∧
  a.pResponse = b.pResponse ∧
  a.CommandBuffer.take (p + 2) = b.CommandBuffer.take (p + 2)

/-- Once the session is busy, any further `CLI_Input` chunks are ignored. -/
theorem feedChunks_busy (cap capR : Nat) (table : CommandTable) :
    ∀ (cs : List (List Nat)) (s : CLIState), s.CLI_Status.busy = true →
    feedChunks cap capR table cs s = s := by
  intro cs
  induction cs with
  | nil => intro s _; rfl
  | cons c cs ih =>
    intro s hb
    show feedChunks cap capR table cs (CLI_Input cap capR table c s).1 = s
    rw [CLI_Input_noop cap capR table c s (Or.inl hb)]
    exact ih s hb

/-- The prefix of a block kept in front of an appended tail. -/
theorem take_len_append (L rest : List Nat) : (L ++ rest).take L.length = L := by
  rw [List.take_append_of_le_length (Nat.le_refl _),
      List.take_of_length_le (Nat.le_refl _)]

/-- Zeroing the terminator position inside a block of nonzero bytes cuts its
C string at that position. -/
theorem cstr_set_block (L : List Nat) (k p : Nat) (hk : 0 < k)
    (hp : p < L.length) (hall : ∀ c ∈ L, (c != 0) = true) :
    cstr (L.set p 0 ++ List.replicate k 0) = L.take p := by
  rw [List.set_eq_take_append_cons_drop, if_pos hp]
  match k, hk with
  | m + 1, _ =>
    have : (L.take p ++ 0 :: L.drop (p + 1)) ++ List.replicate (m + 1) 0 =
        L.take p ++ 0 :: (L.drop (p + 1) ++ List.replicate (m + 1) 0) := by
      simp [List.append_assoc]
    rw [this]
    exact cstr_append_cons_zero _ _ (fun c hc => by
      have := hall c (List.mem_of_mem_take hc)
      simpa using this)

/-- A found pattern occurrence fits inside the haystack. -/
theorem findTerm_some_le (pat l : List Nat) (p : Nat) (hpat : 0 < pat.length)
    (h : findTerm pat l = some p) : p + pat.length ≤ l.length := by
  obtain ⟨h1, _⟩ := findTerm_some_spec pat l p h
  have hpre : pat <+: l.drop p := List.isPrefixOf_iff_prefix.mp h1
  have hl := hpre.length_le
  rw [List.length_drop] at hl
  omega
/-- Feeding a whole line (its accepted bytes `F`, terminator found at `p`)
into `readyState` with one `CLI_Input` call lands in `dispatchedState`. -/
theorem CLI_Input_single (cap capR : Nat) (table : CommandTable)
    (inp : List Nat) (p : Nat)
    (hfit : (inp.filter IS_CHAR_VALID).length < cap)
    (hfind : findTerm String_Newline (inp.filter IS_CHAR_VALID) = some p) :
    (CLI_Input cap capR table inp (readyState cap capR)).1 =
      dispatchedState cap capR table (inp.filter IS_CHAR_VALID) p := by
  have hple : p + 2 ≤ (inp.filter IS_CHAR_VALID).length := by
    have := findTerm_some_le String_Newline (inp.filter IS_CHAR_VALID) p
      (by decide) hfind
    simpa using this
  have hl : inp.length ≠ 0 := by
    have := List.length_filter_le IS_CHAR_VALID inp
    omega
  have hbi : BufferInput cap inp (readyState cap capR).CommandBuffer
      (readyState cap capR).CmdBufIdxIn =
      (storeAt (List.replicate cap 0) 0 (inp.filter IS_CHAR_VALID),
       0 + (inp.filter IS_CHAR_VALID).length, CLIResult.ok) :=
    BufferInput_ok cap inp (List.replicate cap 0) 0 (by omega)
  have hstore : storeAt (List.replicate cap 0) 0 (inp.filter IS_CHAR_VALID) =
      inp.filter IS_CHAR_VALID ++
        List.replicate (cap - (inp.filter IS_CHAR_VALID).length) 0 := by
    have := storeAt_mid cap [] (inp.filter IS_CHAR_VALID) (by simpa using hfit)
    simpa using this
  have hvalF : ∀ b ∈ inp.filter IS_CHAR_VALID, (b != 0) = true :=
    fun b hb => valid_ne_zero b (List.of_mem_filter hb)
  have hcstr : cstr (inp.filter IS_CHAR_VALID ++
      List.replicate (cap - (inp.filter IS_CHAR_VALID).length) 0) =
      inp.filter IS_CHAR_VALID :=
    cstr_block _ _ (by omega) hvalF
  have hr : (BufferInput cap inp (readyState cap capR).CommandBuffer
      (readyState cap capR).CmdBufIdxIn).2.2 = CLIResult.ok := by
    rw [hbi]
  have hft : findTerm String_Newline (cstr (BufferInput cap inp
      (readyState cap capR).CommandBuffer
      (readyState cap capR).CmdBufIdxIn).1) = some p := by
    rw [hbi]
    show findTerm String_Newline
      (cstr (storeAt (List.replicate cap 0) 0 (inp.filter IS_CHAR_VALID))) = some p
    rw [hstore, hcstr]
    exact hfind
  rw [CLI_Input_disp cap capR table inp (readyState cap capR) p rfl hl hr hft]
  have hset : (BufferInput cap inp (readyState cap capR).CommandBuffer
      (readyState cap capR).CmdBufIdxIn).1.set p 0 =
      (inp.filter IS_CHAR_VALID).set p 0 ++
        List.replicate (cap - (inp.filter IS_CHAR_VALID).length) 0 := by
    rw [hbi]
    show (storeAt (List.replicate cap 0) 0 (inp.filter IS_CHAR_VALID)).set p 0 = _
    rw [hstore, List.set_append, if_pos (by omega : p < (inp.filter IS_CHAR_VALID).length)]
  have hidx : (BufferInput cap inp (readyState cap capR).CommandBuffer
      (readyState cap capR).CmdBufIdxIn).2.1 = (inp.filter IS_CHAR_VALID).length := by
    rw [hbi]
    show 0 + (inp.filter IS_CHAR_VALID).length = _
    rw [Nat.zero_add]
  dsimp only
  rw [hset, hidx]
  rfl
/-- Chunked framing reaches the same dispatch observables as the one-shot
line: feeding the chunks `cs` after already-framed bytes `G` (no terminator
among them) ends, once the chunk completing the first terminator arrives,
in a state that agrees with `dispatchedState` of the whole accepted byte
sequence on the response buffer, the status flags, the read cursor, the
response pointer, and the buffer bytes through the terminator region. -/
theorem feedChunks_disp (cap capR : Nat) (table : CommandTable) (p : Nat) :
    ∀ (cs : List (List Nat)) (G : List Nat),
    (∀ b ∈ G, IS_CHAR_VALID b = true) →
    findTerm String_Newline G = none →
    G.length + ((cs.flatten).filter IS_CHAR_VALID).length < cap →
    findTerm String_Newline (G ++ (cs.flatten).filter IS_CHAR_VALID) = some p →
    ObsEq p (feedChunks cap capR table cs (midState cap capR G))
      (dispatchedState cap capR table
        (G ++ (cs.flatten).filter IS_CHAR_VALID) p) := by
  intro cs
  induction cs with
  | nil =>
    intro G hval hnone hfit hsome
    simp only [List.flatten_nil, List.filter_nil, List.append_nil] at hsome
    rw [hnone] at hsome
    exact Option.noConfusion hsome
  | cons c cs ih =>
    intro G hval hnone hfit hsome
    rw [List.flatten_cons, List.filter_append] at hfit hsome ⊢
    show ObsEq p (feedChunks cap capR table cs
      (CLI_Input cap capR table c (midState cap capR G)).1) _
    by_cases hc0 : c.length = 0
    · rw [CLI_Input_noop cap capR table c _ (Or.inr hc0)]
      have hcnil : c = [] := List.length_eq_zero.mp hc0
      subst hcnil
      simp only [List.filter_nil, List.nil_append, List.length_nil,
        Nat.zero_add] at hfit hsome ⊢
      exact ih G hval hnone hfit hsome
    · have hassoc : G ++ (c.filter IS_CHAR_VALID ++
          (cs.flatten).filter IS_CHAR_VALID) =
          (G ++ c.filter IS_CHAR_VALID) ++ (cs.flatten).filter IS_CHAR_VALID :=
        (List.append_assoc G _ _).symm
      rw [hassoc] at hsome ⊢
      have hlenf : G.length + (c.filter IS_CHAR_VALID).length +
          ((cs.flatten).filter IS_CHAR_VALID).length < cap := by
        simp only [List.length_append] at hfit
        omega
      have hbi : BufferInput cap c (midState cap capR G).CommandBuffer
          (midState cap capR G).CmdBufIdxIn =
          (storeAt (G ++ List.replicate (cap - G.length) 0) G.length
             (c.filter IS_CHAR_VALID),
           G.length + (c.filter IS_CHAR_VALID).length, CLIResult.ok) :=
        BufferInput_ok cap c _ G.length (by omega)
      have hstore : storeAt (G ++ List.replicate (cap - G.length) 0) G.length
          (c.filter IS_CHAR_VALID) =
          (G ++ c.filter IS_CHAR_VALID) ++
            List.replicate (cap - (G.length + (c.filter IS_CHAR_VALID).length)) 0 :=
        storeAt_mid cap G _ (by omega)
      have hvalGf : ∀ b ∈ G ++ c.filter IS_CHAR_VALID, IS_CHAR_VALID b = true := by
        intro b hb
        rcases List.mem_append.mp hb with hb | hb
        · exact hval b hb
        · exact List.of_mem_filter hb
      have hvalne : ∀ b ∈ G ++ c.filter IS_CHAR_VALID, (b != 0) = true :=
        fun b hb => valid_ne_zero b (hvalGf b hb)
      have hlenGf : (G ++ c.filter IS_CHAR_VALID).length =
          G.length + (c.filter IS_CHAR_VALID).length := List.length_append _ _
      have hcstr : cstr ((G ++ c.filter IS_CHAR_VALID) ++
          List.replicate (cap - (G.length + (c.filter IS_CHAR_VALID).length)) 0) =
          G ++ c.filter IS_CHAR_VALID :=
        cstr_block _ _ (by omega) hvalne
      have htake : ((G ++ c.filter IS_CHAR_VALID) ++
          (cs.flatten).filter IS_CHAR_VALID).take
            (G.length + (c.filter IS_CHAR_VALID).length) =
          G ++ c.filter IS_CHAR_VALID := by
        rw [show G.length + (c.filter IS_CHAR_VALID).length =
            (G ++ c.filter IS_CHAR_VALID).length from hlenGf.symm]
        exact take_len_append _ _
      have hterm := findTerm_take String_Newline
        ((G ++ c.filter IS_CHAR_VALID) ++ (cs.flatten).filter IS_CHAR_VALID) p
        (G.length + (c.filter IS_CHAR_VALID).length) (by decide) hsome
      rw [htake] at hterm
      have hr : (BufferInput cap c (midState cap capR G).CommandBuffer
          (midState cap capR G).CmdBufIdxIn).2.2 = CLIResult.ok := by
        rw [hbi]
      by_cases hdisp : p + String_Newline.length ≤
          G.length + (c.filter IS_CHAR_VALID).length
      · -- this chunk completes the terminator: dispatch happens here
        rw [if_pos hdisp] at hterm
        have hp2 : p + 2 ≤ G.length + (c.filter IS_CHAR_VALID).length := by
          simpa using hdisp
        have hft : findTerm String_Newline (cstr (BufferInput cap c
            (midState cap capR G).CommandBuffer
            (midState cap capR G).CmdBufIdxIn).1) = some p := by
          rw [hbi]
          show findTerm String_Newline (cstr (storeAt
            (G ++ List.replicate (cap - G.length) 0) G.length
            (c.filter IS_CHAR_VALID))) = some p
          rw [hstore, hcstr]
          exact hterm
        rw [CLI_Input_disp cap capR table c (midState cap capR G) p rfl hc0 hr hft]
        rw [feedChunks_busy cap capR table cs _ rfl]
        have hsetbuf : (BufferInput cap c (midState cap capR G).CommandBuffer
            (midState cap capR G).CmdBufIdxIn).1.set p 0 =
            (G ++ c.filter IS_CHAR_VALID).set p 0 ++
              List.replicate (cap - (G.length + (c.filter IS_CHAR_VALID).length)) 0 := by
          rw [hbi]
          show (storeAt (G ++ List.replicate (cap - G.length) 0) G.length
            (c.filter IS_CHAR_VALID)).set p 0 = _
          rw [hstore, List.set_append, if_pos (by omega : p <
            (G ++ c.filter IS_CHAR_VALID).length)]
        rw [hsetbuf]
        -- congruence between the two dispatch buffers
        have hlenF : ((G ++ c.filter IS_CHAR_VALID) ++
            (cs.flatten).filter IS_CHAR_VALID).length =
            G.length + (c.filter IS_CHAR_VALID).length +
              ((cs.flatten).filter IS_CHAR_VALID).length := by
          simp [List.length_append]
          omega
        have hvalF : ∀ b ∈ (G ++ c.filter IS_CHAR_VALID) ++
            (cs.flatten).filter IS_CHAR_VALID, (b != 0) = true := by
          intro b hb
          rcases List.mem_append.mp hb with hb | hb
          · exact hvalne b hb
          · exact valid_ne_zero b (List.of_mem_filter hb)
        have hcsA : cstr ((G ++ c.filter IS_CHAR_VALID).set p 0 ++
            List.replicate (cap - (G.length + (c.filter IS_CHAR_VALID).length)) 0) =
            (G ++ c.filter IS_CHAR_VALID).take p :=
          cstr_set_block _ _ _ (by omega) (by omega) hvalne
        have hcsB : cstr (((G ++ c.filter IS_CHAR_VALID) ++
            (cs.flatten).filter IS_CHAR_VALID).set p 0 ++
            List.replicate (cap - ((G ++ c.filter IS_CHAR_VALID) ++
              (cs.flatten).filter IS_CHAR_VALID).length) 0) =
            ((G ++ c.filter IS_CHAR_VALID) ++
              (cs.flatten).filter IS_CHAR_VALID).take p :=
          cstr_set_block _ _ _ (by omega) (by omega) hvalF
        have htp : ((G ++ c.filter IS_CHAR_VALID) ++
            (cs.flatten).filter IS_CHAR_VALID).take p =
            (G ++ c.filter IS_CHAR_VALID).take p :=
          List.take_append_of_le_length (by omega)
        have hcs : cstr ((G ++ c.filter IS_CHAR_VALID).set p 0 ++
            List.replicate (cap - (G.length + (c.filter IS_CHAR_VALID).length)) 0) =
            cstr (((G ++ c.filter IS_CHAR_VALID) ++
              (cs.flatten).filter IS_CHAR_VALID).set p 0 ++
              List.replicate (cap - ((G ++ c.filter IS_CHAR_VALID) ++
                (cs.flatten).filter IS_CHAR_VALID).length) 0) := by
          rw [hcsA, hcsB, htp]
        have htakeA : ((G ++ c.filter IS_CHAR_VALID).set p 0 ++
            List.replicate (cap - (G.length + (c.filter IS_CHAR_VALID).length)) 0).take
              (p + 2) =
            ((G ++ c.filter IS_CHAR_VALID).take (p + 2)).set p 0 := by
          rw [List.take_append_eq_append_take]
          rw [show (p + 2) - ((G ++ c.filter IS_CHAR_VALID).set p 0).length = 0 by
            rw [List.length_set]; omega]
          rw [List.take_zero, List.append_nil, take_set]
        have htakeB : (((G ++ c.filter IS_CHAR_VALID) ++
            (cs.flatten).filter IS_CHAR_VALID).set p 0 ++
            List.replicate (cap - ((G ++ c.filter IS_CHAR_VALID) ++
              (cs.flatten).filter IS_CHAR_VALID).length) 0).take (p + 2) =
            ((G ++ c.filter IS_CHAR_VALID).take (p + 2)).set p 0 := by
          rw [List.take_append_eq_append_take]
          rw [show (p + 2) - (((G ++ c.filter IS_CHAR_VALID) ++
              (cs.flatten).filter IS_CHAR_VALID).set p 0).length = 0 by
            rw [List.length_set]; omega]
          rw [List.take_zero, List.append_nil, take_set]
          rw [List.take_append_of_le_length (by omega)]
        have hcongr := InvokeCommand_congr capR table
          ((G ++ c.filter IS_CHAR_VALID).set p 0 ++
            List.replicate (cap - (G.length + (c.filter IS_CHAR_VALID).length)) 0)
          (((G ++ c.filter IS_CHAR_VALID) ++
            (cs.flatten).filter IS_CHAR_VALID).set p 0 ++
            List.replicate (cap - ((G ++ c.filter IS_CHAR_VALID) ++
              (cs.flatten).filter IS_CHAR_VALID).length) 0)
          (List.replicate capR 0) (p + 2) hcs (by rw [htakeA, htakeB])
        exact ⟨hcongr.1, rfl, rfl, rfl, by
          show (InvokeCommand capR table _ (List.replicate capR 0)).1.take (p + 2) =
            (InvokeCommand capR table _ (List.replicate capR 0)).1.take (p + 2)
          exact hcongr.2⟩
      · -- no terminator yet: the state advances to midState (G ++ f)
        rw [if_neg hdisp] at hterm
        have hft : findTerm String_Newline (cstr (BufferInput cap c
            (midState cap capR G).CommandBuffer
            (midState cap capR G).CmdBufIdxIn).1) = none := by
          rw [hbi]
          show findTerm String_Newline (cstr (storeAt
            (G ++ List.replicate (cap - G.length) 0) G.length
            (c.filter IS_CHAR_VALID))) = none
          rw [hstore, hcstr]
          exact hterm
        rw [CLI_Input_nodisp cap capR table c (midState cap capR G) rfl hc0 hr hft]
        have hmid : ({ midState cap capR G with
            CommandBuffer := (BufferInput cap c (midState cap capR G).CommandBuffer
              (midState cap capR G).CmdBufIdxIn).1
            CmdBufIdxIn := (BufferInput cap c (midState cap capR G).CommandBuffer
              (midState cap capR G).CmdBufIdxIn).2.1 } : CLIState) =
            midState cap capR (G ++ c.filter IS_CHAR_VALID) := by
          rw [hbi]
          show ({ midState cap capR G with
            CommandBuffer := storeAt (G ++ List.replicate (cap - G.length) 0)
              G.length (c.filter IS_CHAR_VALID)
            CmdBufIdxIn := G.length + (c.filter IS_CHAR_VALID).length } : CLIState) = _
          rw [hstore]
          show ({ midState cap capR G with
            CommandBuffer := (G ++ c.filter IS_CHAR_VALID) ++
              List.replicate (cap - (G.length + (c.filter IS_CHAR_VALID).length)) 0
            CmdBufIdxIn := G.length + (c.filter IS_CHAR_VALID).length } : CLIState) = _
          simp only [midState, readyState, initState, hlenGf]
        rw [hmid]
        exact ih (G ++ c.filter IS_CHAR_VALID) hvalGf hterm
          (by omega) (by rw [List.append_assoc] at hsome ⊢; exact hsome)
/-- C7: chunking invariance.  For every byte sequence whose accepted bytes
stay within the command-buffer capacity and contain a line terminator (first
occurrence at `p`), delivering it split into arbitrary chunks by successive
`CLI_Input` calls and delivering it whole in a single `CLI_Input` call
dispatch the same command line and store the same response: the two final
states agree on the response buffer, the status flags, the read cursor, the
response pointer, and every buffer byte through the dispatched line and its
terminator (`ObsEq p`); the post-trim line dispatched is the same bytes
`take p` of the accepted sequence in both runs. -/
theorem C7_chunking_invariance (cap capR : Nat) (table : CommandTable)
    (chunks : List (List Nat)) (p : Nat)
    (hfit : ((chunks.flatten).filter IS_CHAR_VALID).length < cap)
    (hfind : findTerm String_Newline
      ((chunks.flatten).filter IS_CHAR_VALID) = some p) :
    ObsEq p (feedChunks cap capR table chunks (readyState cap capR))
      (CLI_Input cap capR table chunks.flatten (readyState cap capR)).1 := by
  rw [CLI_Input_single cap capR table chunks.flatten p hfit hfind]
  have hready : readyState cap capR = midState cap capR [] := rfl
  rw [hready]
  have hmain := feedChunks_disp cap capR table p chunks []
    (by intro b hb; exact absurd hb (List.not_mem_nil b))
    (by rfl)
    (by simpa using hfit)
    (by simpa using hfind)
  simpa using hmain

/-- Witness for C7: "GET_LOG\r\n" delivered in three chunks and in one call
produce the same dispatch observables. -/
theorem C7_chunking_invariance_witness :
    ObsEq 7 (feedChunks 64 64 CommandSet [[71, 69], [84, 95, 76, 79, 71, 13], [10]]
        (readyState 64 64))
      (CLI_Input 64 64 CommandSet
        ([[71, 69], [84, 95, 76, 79, 71, 13], [10]] : List (List Nat)).flatten
        (readyState 64 64)).1 :=
  C7_chunking_invariance 64 64 CommandSet [[71, 69], [84, 95, 76, 79, 71, 13], [10]] 7
    (by decide) (by decide)
